import Mathlib

/-!
# KubeBlocks CLI: inventory discovery and custom-resource teardown

A shallow embedding of `internal/cli/cmd/kubeblocks/kubeblocks_objects.go`:
`getKBObjects` (discovery), `removeCustomResources` / `deleteObjects`
(teardown) and `getRemainedResource` (reporting).

The dynamic client is an external service.  It is modelled as a family of
answer functions that may depend on the whole history of earlier calls and
answers, so every deterministic cluster behaviour (including a cluster that
changes between two calls) is an instance.  Every function that talks to the
client threads that history and returns it, which gives the ordered trace of
the calls the code issued.
-/

namespace KubeBlocks

/-! ## Data model -/

/-- Go `schema.GroupVersionResource`: the Resource Type Key. -/
structure GVR where
  Group : String
  Version : String
  Resource : String
deriving DecidableEq, Repr

/-- Errors seen by the code.  `notFound` is the API status error recognised by
`apierrors.IsNotFound`; `malformedDefinition` is the resolver failure;
`conversion` is a failed `FromUnstructured`; `other` is any other client error. -/
inductive Err where
  | notFound (msg : String)
  | malformedDefinition (crd : String)
  | conversion (obj : String)
  | other (msg : String)
deriving DecidableEq, Repr

deriving instance DecidableEq for Except

/-- Go `apierrors.IsNotFound`. -/
def IsNotFound : Err → Bool
  | Err.notFound _ => true
  | _ => false

/-- Go `unstructured.Unstructured`, read through its accessors: `GetNamespace`,
`GetName`, `GetFinalizers`, `GetDeletionTimestamp` (`none` is the nil pointer),
the three fields a Definition Object carries for the resolver (`none` when the
field cannot be extracted) and the claim's `spec.volumeName` as produced by
`FromUnstructured` (`none` when the conversion fails). -/
structure Obj where
  Namespace : String
  Name : String
  Finalizers : List String
  DeletionTimestamp : Option Nat
  group : Option String
  servedVersion : Option String
  plural : Option String
  volumeName : Option String
deriving DecidableEq, Repr

/-- Go `(*metav1.Time).IsZero`: a nil pointer or the zero instant. -/
def IsZero : Option Nat → Bool
  | none => true
  | some t => t == 0

/-- Go maps, as association lists with at most one binding per key in use. -/
def mapGet {κ ν : Type} [DecidableEq κ] : List (κ × ν) → κ → Option ν
  | [], _ => none
  | (k1, v) :: m, k => if k1 = k then some v else mapGet m k

/-- Go map assignment `m[k] = v`. -/
def mapSet {κ ν : Type} [DecidableEq κ] : List (κ × ν) → κ → ν → List (κ × ν)
  | [], k, v => [(k, v)]
  | (k1, v1) :: m, k, v => if k1 = k then (k, v) :: m else (k1, v1) :: mapSet m k v

/-- Go `type kbObjects map[schema.GroupVersionResource]*unstructured.UnstructuredList`:
the Inventory.  Stored list pointers are never nil. -/
abbrev kbObjects := List (GVR × List Obj)

/-! ## The dynamic client -/

/-- One request to the dynamic client.  `ns = ""` is a call without
`.Namespace(...)` or with the empty namespace: cluster scope. -/
inductive Call where
  | list (gvr : GVR) (ns : String) (labelSelector : String)
  | get (gvr : GVR) (ns : String) (name : String)
  | delete (gvr : GVR) (ns : String) (name : String) (gracePeriodSeconds : Nat)
  | patch (gvr : GVR) (ns : String) (name : String) (pt : String) (data : String)
deriving DecidableEq, Repr

/-- The answer to a request. -/
inductive Resp where
  | items (l : List Obj)
  | item (o : Obj)
  | done
  | err (e : Err)
deriving DecidableEq, Repr

/-- A request together with its answer. -/
structure Event where
  call : Call
  resp : Resp
deriving DecidableEq, Repr

/-- Go `dynamic.Interface`, restricted to the four verbs the code uses.  Each
answer may depend on the history of earlier events.  `list` and `get` answer
`Except.error` with a nil result pointer, as client-go does. -/
structure Client where
  list : List Event → GVR → String → String → Except Err (List Obj)
  get : List Event → GVR → String → String → Except Err Obj
  delete : List Event → GVR → String → String → Nat → Option Err
  patch : List Event → GVR → String → String → String → String → Option Err

/-- The trace entry of a `List` answer. -/
def listResp : Except Err (List Obj) → Resp
  | Except.ok l => Resp.items l
  | Except.error e => Resp.err e

/-- The trace entry of a `Get` answer. -/
def getResp : Except Err Obj → Resp
  | Except.ok o => Resp.item o
  | Except.error e => Resp.err e

/-- The error of a `List` answer; `none` is nil. -/
def errOf {α : Type} : Except Err α → Option Err
  | Except.ok _ => none
  | Except.error e => some e

/-- The trace entry of a `Delete` or `Patch` answer. -/
def errResp : Option Err → Resp
  | none => Resp.done
  | some e => Resp.err e

/-! ## Constants of packages that are not part of the sources at hand -/

/-- Modelled from the spec: `types.CRDGVR()` (package `types` is absent), the
type key of Definition Objects. -/
def CRDGVR : GVR := ⟨"apiextensions.k8s.io", "v1", "customresourcedefinitions"⟩

/-- Modelled from the spec: `types.DeployGVR()`, workload controllers. -/
def DeployGVR : GVR := ⟨"apps", "v1", "deployments"⟩

/-- Modelled from the spec: `types.StatefulSetGVR()`, stateful workloads. -/
def StatefulSetGVR : GVR := ⟨"apps", "v1", "statefulsets"⟩

/-- Modelled from the spec: `types.ServiceGVR()`, network services. -/
def ServiceGVR : GVR := ⟨"", "v1", "services"⟩

/-- Modelled from the spec: `types.ConfigmapGVR()`, configuration objects. -/
def ConfigmapGVR : GVR := ⟨"", "v1", "configmaps"⟩

/-- Modelled from the spec: `types.PVCGVR()`, volume claims. -/
def PVCGVR : GVR := ⟨"", "v1", "persistentvolumeclaims"⟩

/-- Modelled from the spec: `types.PVGVR()`, volumes. -/
def PVGVR : GVR := ⟨"", "v1", "persistentvolumes"⟩

/-- Modelled from the spec: `types.VolumeSnapshotClassGVR()`. -/
def VolumeSnapshotClassGVR : GVR := ⟨"snapshot.storage.k8s.io", "v1", "volumesnapshotclasses"⟩

/-- Modelled from the spec: `types.KubeBlocksChartName`. -/
def KubeBlocksChartName : String := "kubeblocks"

/-- Modelled from the spec: `intctrlutil.AppInstanceLabelKey`. -/
def AppInstanceLabelKey : String := "app.kubernetes.io/instance"

/-- Go `k8sapitypes.JSONPatchType`. -/
def JSONPatchType : String := "application/json-patch+json"

/-- The patch body of `deleteObjects`: remove `/metadata/finalizers`. -/
def removeFinalizersPatch : String :=
  "[\x7b\"op\": \"remove\", \"path\": \"/metadata/finalizers\"\x7d]"

/-- Source `resourceGVRs`. -/
def resourceGVRs : List GVR :=
  [DeployGVR, StatefulSetGVR, ServiceGVR, ConfigmapGVR, PVCGVR]

/-- Modelled from the spec: `getGVRByCRD` (its body is absent), the Dependency
Resolver: a pure function from a Definition Object to its Resource Type Key,
failing with `MalformedDefinition` if the group, a served version or the plural
resource name cannot be extracted. -/
def getGVRByCRD (crd : Obj) : Except Err GVR :=
  match crd.group, crd.servedVersion, crd.plural with
  | some g, some v, some r => Except.ok ⟨g, v, r⟩
  | _, _, _ => Except.error (Err.malformedDefinition crd.Name)

/-- Source `newDeleteOpts`: grace period zero. -/
def newDeleteOpts : Nat := 0

/-! ## Teardown -/

/-- Lines 186-191 of `deleteObjects`: delete an object that is not yet being
deleted; a failure other than NotFound is returned. -/
def deleteIfLive (c : Client) (gvr : GVR) (s : Obj) (h : List Event) :
    Option Err × List Event :=
  if IsZero s.DeletionTimestamp then
    let r := c.delete h gvr s.Namespace s.Name newDeleteOpts
    let h1 := h ++ [Event.mk (Call.delete gvr s.Namespace s.Name newDeleteOpts) (errResp r)]
    match r with
    | some err => if !IsNotFound err then (some err, h1) else (none, h1)
    | none => (none, h1)
  else (none, h)

/-- Lines 193-202 of `deleteObjects`: strip the finalizers of an object that
has any; a failure other than NotFound is returned. -/
def stripFinalizers (c : Client) (gvr : GVR) (s : Obj) (h : List Event) :
    Option Err × List Event :=
  if s.Finalizers.length = 0 then (none, h)
  else
    let r := c.patch h gvr s.Namespace s.Name JSONPatchType removeFinalizersPatch
    let h1 := h ++ [Event.mk
      (Call.patch gvr s.Namespace s.Name JSONPatchType removeFinalizersPatch) (errResp r)]
    match r with
    | some err => if !IsNotFound err then (some err, h1) else (none, h1)
    | none => (none, h1)

/-- The loop `for _, s := range objects.Items` of `deleteObjects`. -/
def deleteItems (c : Client) (gvr : GVR) : List Obj → List Event → Option Err × List Event
  | [], h => (none, h)
  | s :: rest, h =>
    match deleteIfLive c gvr s h with
    | (some err, h1) => (some err, h1)
    | (none, h1) =>
      match stripFinalizers c gvr s h1 with
      | (some err, h2) => (some err, h2)
      | (none, h2) => deleteItems c gvr rest h2

/-- Source `deleteObjects`; `none` is the nil list pointer. -/
def deleteObjects (c : Client) (gvr : GVR) (objects : Option (List Obj)) (h : List Event) :
    Option Err × List Event :=
  match objects with
  | none => (none, h)
  | some l => deleteItems c gvr l h

/-- The loop `for _, crd := range crds.Items` of `removeCustomResources`. -/
def removeCRDs (c : Client) (objs : kbObjects) : List Obj → List Event → Option Err × List Event
  | [], h => (none, h)
  | crd :: rest, h =>
    match getGVRByCRD crd with
    | Except.error err => (some err, h)
    | Except.ok gvr =>
      match mapGet objs gvr with
      | none => removeCRDs c objs rest h
      | some crs =>
        match deleteObjects c gvr (some crs) h with
        | (some err, h1) => (some err, h1)
        | (none, h1) => removeCRDs c objs rest h1

/-- Source `removeCustomResources`: the returned error (`none` is nil) and the
trace of the client calls issued, in order. -/
def removeCustomResources (c : Client) (objs : kbObjects) : Option Err × List Event :=
  match mapGet objs CRDGVR with
  | none => (none, [])
  | some crds => removeCRDs c objs crds []

/-! ## Discovery -/

/-- Does `s` start with the characters `p`? -/
def startsWithChars : List Char → List Char → Bool
  | [], _ => true
  | _ :: _, [] => false
  | a :: p, b :: s => a == b && startsWithChars p s

/-- Does `sub` occur in the character list? -/
def containsChars (sub : List Char) : List Char → Bool
  | [] => sub.isEmpty
  | ch :: s => startsWithChars sub (ch :: s) || containsChars sub s

/-- Go `strings.Contains`. -/
def Contains (s substr : String) : Bool := containsChars substr.toList s.toList

/-- Ownership test of `getKBObjects`, line 72. -/
def retained (crd : Obj) : Bool := Contains crd.Name "kubeblocks.io"

/-- The local variables of `getKBObjects` that change while it runs, and the
trace of client calls issued so far. -/
structure DState where
  kbObjs : kbObjects
  allErrs : List Err
  h : List Event

/-- The closure `appendErr` of `getKBObjects`, on the slice `allErrs`. -/
def appendErr (allErrs : List Err) (err : Option Err) : List Err :=
  match err with
  | none => allErrs
  | some e => if IsNotFound e then allErrs else allErrs ++ [e]

/-- The loop `for i, crd := range crds.Items` of `getKBObjects`, lines 71-90.
`none` is a nil-pointer panic (`kbObjs[types.CRDGVR()]` absent at line 75). -/
def crdLoop (c : Client) : List Obj → DState → Option DState
  | [], st => some st
  | crd :: rest, st =>
    if !retained crd then crdLoop c rest st
    else
      match mapGet st.kbObjs CRDGVR with
      | none => none
      | some crdObjs =>
        let objs1 := mapSet st.kbObjs CRDGVR (crdObjs ++ [crd])
        match getGVRByCRD crd with
        | Except.error err => crdLoop c rest (DState.mk objs1 (appendErr st.allErrs (some err)) st.h)
        | Except.ok gvr =>
          let r := c.list st.h gvr "" ""
          let h1 := st.h ++ [Event.mk (Call.list gvr "" "") (listResp r)]
          match r with
          | Except.error err => crdLoop c rest (DState.mk objs1 (appendErr st.allErrs (some err)) h1)
          | Except.ok crs => crdLoop c rest (DState.mk (mapSet objs1 gvr crs) st.allErrs h1)

/-- The closure `getObjects` of `getKBObjects`, lines 93-107. -/
def getObjects (c : Client) (ns : String) (labelSelector : String) (gvr : GVR) (st : DState) :
    DState :=
  let r := c.list st.h gvr ns labelSelector
  let h1 := st.h ++ [Event.mk (Call.list gvr ns labelSelector) (listResp r)]
  match r with
  | Except.error err => DState.mk st.kbObjs (appendErr st.allErrs (some err)) h1
  | Except.ok objs =>
    let kbObjs1 := match mapGet st.kbObjs gvr with
      | none => mapSet st.kbObjs gvr []
      | some _ => st.kbObjs
    DState.mk (mapSet kbObjs1 gvr ((mapGet kbObjs1 gvr).getD [] ++ objs)) st.allErrs h1

/-- The closure `getObject` of `getKBObjects`, lines 110-121.  The request is
issued through `.Namespace(namespace)`. -/
def getObject (c : Client) (ns : String) (name : String) (gvr : GVR) (st : DState) : DState :=
  let r := c.get st.h gvr ns name
  let h1 := st.h ++ [Event.mk (Call.get gvr ns name) (getResp r)]
  match r with
  | Except.error err => DState.mk st.kbObjs (appendErr st.allErrs (some err)) h1
  | Except.ok obj =>
    let kbObjs1 := match mapGet st.kbObjs gvr with
      | none => mapSet st.kbObjs gvr []
      | some _ => st.kbObjs
    DState.mk (mapSet kbObjs1 gvr ((mapGet kbObjs1 gvr).getD [] ++ [obj])) st.allErrs h1

/-- Line 124: `instanceLabelSelector`. -/
def instanceLabelSelector : String := AppInstanceLabelKey ++ "=" ++ KubeBlocksChartName

/-- Line 125: `releaseLabelSelector`. -/
def releaseLabelSelector : String := "release=" ++ KubeBlocksChartName

/-- Lines 129-133: for each of the two selectors, probe every kind of
`resourceGVRs`. -/
def probeResources (c : Client) (ns : String) (st : DState) : DState :=
  [instanceLabelSelector, releaseLabelSelector].foldl
    (fun st1 labelSelector =>
      resourceGVRs.foldl (fun st2 gvr => getObjects c ns labelSelector gvr st2) st1) st

/-- The loop `for _, obj := range pvcs.Items`, lines 140-147. -/
def pvLoop (c : Client) (ns : String) : List Obj → DState → DState
  | [], st => st
  | obj :: rest, st =>
    match obj.volumeName with
    | none => pvLoop c ns rest (DState.mk st.kbObjs
        (appendErr st.allErrs (some (Err.conversion obj.Name))) st.h)
    | some v => pvLoop c ns rest (getObject c ns v PVGVR st)

/-- Lines 139-148: volumes of the claims found so far. -/
def getPVs (c : Client) (ns : String) (st : DState) : DState :=
  match mapGet st.kbObjs PVCGVR with
  | none => st
  | some pvcs => pvLoop c ns pvcs st

/-- Source `getKBObjects`, with its local state exposed.  `none` is a
nil-pointer panic: when the first `List` fails the client returns a nil list,
and line 71 evaluates `crds.Items`. -/
def getKBObjectsRun (c : Client) (ns : String) : Option DState :=
  let r := c.list [] CRDGVR "" ""
  let h0 := [Event.mk (Call.list CRDGVR "" "") (listResp r)]
  let allErrs := appendErr [] (errOf r)
  let kbObjs : kbObjects := mapSet [] CRDGVR []
  match r with
  | Except.error _ => none
  | Except.ok crds =>
    match crdLoop c crds (DState.mk kbObjs allErrs h0) with
    | none => none
    | some st1 =>
      some (getPVs c ns
        (getObjects c ns instanceLabelSelector VolumeSnapshotClassGVR (probeResources c ns st1)))

/-- Go `utilerrors.NewAggregate`: nil for an empty list. -/
def NewAggregate (errlist : List Err) : Option (List Err) :=
  if errlist.length = 0 then none else some errlist

/-- Source `getKBObjects`: the Inventory and the aggregate error, or `none`
when the call panics. -/
def getKBObjects (c : Client) (ns : String) : Option (kbObjects × Option (List Err)) :=
  (getKBObjectsRun c ns).map (fun st => (st.kbObjs, NewAggregate st.allErrs))

/-! ## Reporting -/

/-- The closure `appendItems` of `getRemainedResource`: `res[key]` grows by
the name of every item. -/
def appendItems (res : List (String × List String)) (key : String) :
    List Obj → List (String × List String)
  | [] => res
  | item :: l => appendItems (mapSet res key ((mapGet res key).getD [] ++ [item.Name])) key l

/-- Source `getRemainedResource`.  The Go map is ranged in an unspecified
order; here the order is that of the association list, and every order is the
order of some association list. -/
def getRemainedResource (objs : kbObjects) : List (String × List String) :=
  objs.foldl
    (fun res kv => if kv.1 = PVCGVR ∨ kv.1 = PVGVR then res else appendItems res kv.1.Resource kv.2)
    []

/-! ## Specification-side vocabulary -/

/-- The error of an event that is a failure other than NotFound. -/
def fatalErr (ev : Event) : Option Err :=
  match ev.resp with
  | Resp.err e => if IsNotFound e then none else some e
  | _ => none

/-- The type key a request targets. -/
def Call.target : Call → GVR
  | Call.list g _ _ => g
  | Call.get g _ _ => g
  | Call.delete g _ _ _ => g
  | Call.patch g _ _ _ _ => g

/-- The finalizer-strip request for one record. -/
def stripCall (gvr : GVR) (s : Obj) : Call :=
  Call.patch gvr s.Namespace s.Name JSONPatchType removeFinalizersPatch

/-- The delete request for one record. -/
def deleteCall (gvr : GVR) (s : Obj) : Call :=
  Call.delete gvr s.Namespace s.Name newDeleteOpts

/-- The requests teardown owes one record: a delete unless the record is
already being deleted, then a finalizer strip if it has finalizers. -/
def plannedCalls (gvr : GVR) (s : Obj) : List Call :=
  (if IsZero s.DeletionTimestamp then [deleteCall gvr s] else []) ++
    (if s.Finalizers.length = 0 then [] else [stripCall gvr s])

/-- The requests teardown owes a sequence of records. -/
def plannedItems (gvr : GVR) : List Obj → List Call
  | [] => []
  | s :: rest => plannedCalls gvr s ++ plannedItems gvr rest

/-- The requests teardown owes one Definition Object. -/
def plannedCRD (objs : kbObjects) (crd : Obj) : List Call :=
  match getGVRByCRD crd with
  | Except.error _ => []
  | Except.ok gvr =>
    match mapGet objs gvr with
    | none => []
    | some crs => plannedItems gvr crs

/-- The requests teardown owes a list of Definition Objects. -/
def plannedCRDs (objs : kbObjects) : List Obj → List Call
  | [] => []
  | crd :: rest => plannedCRD objs crd ++ plannedCRDs objs rest

/-- The requests a complete teardown of the Inventory issues. -/
def planned (objs : kbObjects) : List Call :=
  match mapGet objs CRDGVR with
  | none => []
  | some crds => plannedCRDs objs crds

/-- What a fail-fast run looks like: a fatal answer is the last event and is
the returned error; the requests issued are a leading part of the plan, and
the whole plan when no error is returned. -/
def Ran (r : Option Err) (new : List Event) (plan : List Call) : Prop :=
  (∀ pre ev post e, new = pre ++ ev :: post → fatalErr ev = some e → post = [] ∧ r = some e) ∧
  (∃ rest, plan = new.map Event.call ++ rest) ∧
  (r = none → new.map Event.call = plan)

/-- One cluster-wide `List` per retained Definition Object whose type key
resolves, in order. -/
def crCalls (crds : List Obj) : List Call :=
  ((crds.filter retained).filterMap (fun d => (getGVRByCRD d).toOption)).map
    (fun K => Call.list K "" "")

/-- The records of an event that is a successful cluster-wide `List` of `K`. -/
def listedFor (K : GVR) (ev : Event) : Option (List Obj) :=
  if ev.call = Call.list K "" "" then
    match ev.resp with
    | Resp.items l => some l
    | _ => none
  else none

/-- The answer of the last successful cluster-wide `List` of `K` in a trace,
or `base` when there is none. -/
def lastListedFrom (K : GVR) (base : Option (List Obj)) (tr : List Event) : Option (List Obj) :=
  tr.foldl (fun acc ev => match listedFor K ev with
    | some l => some l
    | none => acc) base

/-- The answer of the last successful cluster-wide `List` of `K` in a trace. -/
def lastListed (K : GVR) (tr : List Event) : Option (List Obj) := lastListedFrom K none tr

/-- The records of a successful `List`. -/
def okItems : Resp → Option (List Obj)
  | Resp.items l => some l
  | _ => none

/-- The answers of the successful `List` events of a trace that target `g`,
in order. -/
def gathered (g : GVR) (tr : List Event) : List (List Obj) :=
  tr.filterMap (fun ev => if ev.call.target = g then okItems ev.resp else none)

/-- Appending result sets to an Inventory entry that may be absent. -/
def addAll (base : Option (List Obj)) (ls : List (List Obj)) : Option (List Obj) :=
  ls.foldl (fun acc l => some (acc.getD [] ++ l)) base

/-- The label-selector probes of lines 129-136, in the order they are issued. -/
def probeList : List (String × GVR) :=
  resourceGVRs.map (fun g => (instanceLabelSelector, g)) ++
    resourceGVRs.map (fun g => (releaseLabelSelector, g)) ++
    [(instanceLabelSelector, VolumeSnapshotClassGVR)]

/-- Running a list of label-selector probes in order. -/
def runProbes (c : Client) (ns : String) : List (String × GVR) → DState → DState
  | [], st => st
  | p :: ps, st => runProbes c ns ps (getObjects c ns p.1 p.2 st)

/-- The request of one label-selector probe. -/
def probeCall (ns : String) (p : String × GVR) : Call := Call.list p.2 ns p.1

/-- One `Get` of the volume kind per claim whose conversion succeeds. -/
def pvCalls (ns : String) (pvcs : List Obj) : List Call :=
  pvcs.filterMap (fun o => o.volumeName.map (fun v => Call.get PVGVR ns v))

/-- The number of retained Definition Objects whose type key does not resolve. -/
def malformedCount (crds : List Obj) : Nat :=
  (crds.filter retained).countP (fun d => (getGVRByCRD d).toOption.isNone)

/-- The number of client answers in a trace that are failures other than
NotFound. -/
def fatalCount (tr : List Event) : Nat := tr.countP (fun ev => (fatalErr ev).isSome)

/-- The number of claims whose conversion fails. -/
def convCount (pvcs : List Obj) : Nat := pvcs.countP (fun o => o.volumeName.isNone)

/-- The kinds probed after the custom-resource phase. -/
def laterProbed : List GVR := resourceGVRs ++ [VolumeSnapshotClassGVR, PVGVR]

/-! ## Concrete clusters and inventories -/

/-- A record with nothing but its identity. -/
def plainObj (ns name : String) : Obj := ⟨ns, name, [], none, none, none, none, none⟩

/-- A Definition Object with all three resolver fields present. -/
def defObj (name group version plural : String) : Obj :=
  ⟨"", name, [], none, some group, some version, some plural, none⟩

/-- The Definition Object `clusters.dbaas.kubeblocks.io`. -/
def clustersCRD : Obj := defObj "clusters.dbaas.kubeblocks.io" "dbaas.kubeblocks.io" "v1alpha1" "clusters"

/-- The type key `clustersCRD` resolves to. -/
def clustersGVR : GVR := ⟨"dbaas.kubeblocks.io", "v1alpha1", "clusters"⟩

/-- The Definition Object `backups.dataprotection.kubeblocks.io`. -/
def backupsCRD : Obj :=
  defObj "backups.dataprotection.kubeblocks.io" "dataprotection.kubeblocks.io" "v1alpha1" "backups"

/-- The type key `backupsCRD` resolves to. -/
def backupsGVR : GVR := ⟨"dataprotection.kubeblocks.io", "v1alpha1", "backups"⟩

/-- A custom resource blocked by a finalizer, not yet being deleted. -/
def stuckCluster : Obj :=
  ⟨"default", "mycluster", ["cluster.kubeblocks.io/finalizer"], none, none, none, none, none⟩

/-- A custom resource blocked by a finalizer and already being deleted. -/
def dyingCluster : Obj :=
  ⟨"default", "oldcluster", ["cluster.kubeblocks.io/finalizer"], some 1700000000, none, none, none, none⟩

/-- An Inventory with two custom kinds. -/
def twoKindInv : kbObjects :=
  [(CRDGVR, [clustersCRD, backupsCRD]),
   (clustersGVR, [stuckCluster, dyingCluster]),
   (backupsGVR, [plainObj "default" "backup-1"])]

/-- A client on which every call succeeds and every list is empty. -/
def okClient : Client :=
  ⟨fun _ _ _ _ => Except.ok [], fun _ _ ns name => Except.ok (plainObj ns name),
   fun _ _ _ _ _ => none, fun _ _ _ _ _ _ => none⟩

/-- A cluster from which everything is gone: every call answers NotFound. -/
def goneClient : Client :=
  ⟨fun _ _ _ _ => Except.error (Err.notFound "gone"), fun _ _ _ _ => Except.error (Err.notFound "gone"),
   fun _ _ _ _ _ => some (Err.notFound "gone"), fun _ _ _ _ _ _ => some (Err.notFound "gone")⟩

/-- A client that refuses the finalizer strip of `oldcluster` only. -/
def patchFailClient : Client :=
  ⟨fun _ _ _ _ => Except.ok [], fun _ _ ns name => Except.ok (plainObj ns name),
   fun _ _ _ _ _ => none,
   fun _ _ _ name _ _ => if name = "oldcluster" then some (Err.other "conflict") else none⟩

/-- A cluster whose API server refuses every call. -/
def downClient : Client :=
  ⟨fun _ _ _ _ => Except.error (Err.other "connection refused"),
   fun _ _ _ _ => Except.error (Err.other "connection refused"),
   fun _ _ _ _ _ => some (Err.other "connection refused"),
   fun _ _ _ _ _ _ => some (Err.other "connection refused")⟩

/-- A retained Definition Object whose group cannot be extracted. -/
def brokenCRD : Obj :=
  ⟨"", "opsrequests.dbaas.kubeblocks.io", [], none, none, some "v1alpha1", some "opsrequests", none⟩

/-- A Definition Object of another installation. -/
def foreignCRD : Obj := defObj "certificates.cert-manager.io" "cert-manager.io" "v1" "certificates"

/-- A cluster with a malformed Definition Object first, where listing clusters
times out and every probe of services answers NotFound. -/
def flakyClient : Client :=
  ⟨fun _ gvr _ _ =>
      if gvr = CRDGVR then Except.ok [brokenCRD, clustersCRD, foreignCRD]
      else if gvr = clustersGVR then Except.error (Err.other "timeout")
      else if gvr = ServiceGVR then Except.error (Err.notFound "services")
      else Except.ok [],
   fun _ _ _ name => Except.error (Err.notFound name),
   fun _ _ _ _ _ => none, fun _ _ _ _ _ _ => none⟩

/-- The installation's own deployment. -/
def kbDeployment : Obj := plainObj "kb-system" "kubeblocks"

/-- A cluster where both label selectors match the installation's deployment. -/
def bothSelectorsClient : Client :=
  ⟨fun _ gvr _ labelSelector =>
      if gvr = DeployGVR ∧ labelSelector ≠ "" then Except.ok [kbDeployment] else Except.ok [],
   fun _ _ _ name => Except.error (Err.notFound name),
   fun _ _ _ _ _ => none, fun _ _ _ _ _ _ => none⟩

/-- The claim `data-mycluster-0`, bound to the volume `pvc-abc123`. -/
def boundClaim : Obj :=
  ⟨"kb-system", "data-mycluster-0", [], none, none, none, none, some "pvc-abc123"⟩

/-- The volume `pvc-abc123`; volumes have no namespace. -/
def boundVolume : Obj := plainObj "" "pvc-abc123"

/-- A cluster holding the claim in namespace `kb-system` (matched by the
instance selector) and the volume at cluster scope.  A Get of the volume
succeeds at cluster scope only; every other Get answers NotFound. -/
def volumeClient : Client :=
  ⟨fun _ gvr ns labelSelector =>
      if gvr = PVCGVR ∧ ns = "kb-system" ∧ labelSelector = instanceLabelSelector
        then Except.ok [boundClaim] else Except.ok [],
   fun _ gvr ns name =>
      if gvr = PVGVR ∧ ns = "" ∧ name = "pvc-abc123" then Except.ok boundVolume
      else Except.error (Err.notFound name),
   fun _ _ _ _ _ => none, fun _ _ _ _ _ _ => none⟩

/-- The number of errors in an aggregate; nil holds none. -/
def aggregateSize : Option (List Err) → Nat
  | none => 0
  | some errs => errs.length

/-- An Inventory whose second Definition Object is malformed. -/
def brokenInv : kbObjects :=
  [(CRDGVR, [clustersCRD, brokenCRD, backupsCRD]),
   (clustersGVR, [stuckCluster]),
   (backupsGVR, [plainObj "default" "backup-1"])]

/-- The name Kubernetes gives a Definition Object: its plural resource name,
a dot, its group.  The API server admits no Definition Object under another
name; an object without group or plural resolves to no key and is not
constrained. -/
def wellNamed (crd : Obj) : Bool :=
  match crd.group, crd.plural with
  | some g, some p => crd.Name == p ++ "." ++ g
  | _, _ => true

/-- The Definition Object key and the kinds probed after the custom-resource
phase: the kinds teardown must leave alone. -/
def protectedKinds : List GVR := CRDGVR :: laterProbed

/-- A cluster that refuses the List of Definition Objects, although both
label selectors would match the installation's deployment. -/
def crdForbiddenClient : Client :=
  ⟨fun _ gvr _ labelSelector =>
      if gvr = CRDGVR then Except.error (Err.other "forbidden")
      else if gvr = DeployGVR ∧ labelSelector ≠ "" then Except.ok [kbDeployment]
      else Except.ok [],
   fun _ _ _ name => Except.error (Err.notFound name),
   fun _ _ _ _ _ => none, fun _ _ _ _ _ _ => none⟩

/-- Is the request a `Get`? -/
def Call.isGet : Call → Bool
  | Call.get _ _ _ => true
  | _ => false

/-- An Inventory with a deployment, a claim and its volume. -/
def storageInv : kbObjects :=
  [(DeployGVR, [kbDeployment]), (PVCGVR, [boundClaim]), (PVGVR, [boundVolume])]

/-- A custom kind whose plural name is that of the built-in volume kind. -/
def customVolumesGVR : GVR := ⟨"storage.kubeblocks.io", "v1alpha1", "persistentvolumes"⟩

/-- An Inventory holding the claim and volume entries and one record of a
custom kind that shares the volume kind's plural name. -/
def clashInv : kbObjects :=
  [(PVCGVR, [boundClaim]), (PVGVR, [boundVolume]),
   (customVolumesGVR, [plainObj "default" "scratch"])]

/-! ## Maps -/

theorem mapGet_mapSet_self {κ ν : Type} [DecidableEq κ] (m : List (κ × ν)) (k : κ) (v : ν) :
    mapGet (mapSet m k v) k = some v := by
  induction m with
  | nil => simp [mapSet, mapGet]
  | cons kv m ih =>
    obtain ⟨k1, v1⟩ := kv
    by_cases hk : k1 = k
    · simp [mapSet, mapGet, hk]
    · simp [mapSet, mapGet, hk, ih]

theorem mapGet_mapSet_ne {κ ν : Type} [DecidableEq κ] (m : List (κ × ν)) (k k2 : κ) (v : ν)
    (hne : k ≠ k2) : mapGet (mapSet m k v) k2 = mapGet m k2 := by
  induction m with
  | nil => simp [mapSet, mapGet, hne]
  | cons kv m ih =>
    obtain ⟨k1, v1⟩ := kv
    by_cases hk : k1 = k
    · subst hk
      simp [mapSet, mapGet, hne]
    · by_cases hk2 : k1 = k2
      · subst hk2
        simp [mapSet, mapGet, hk]
      · simp [mapSet, mapGet, hk, hk2, ih]

/-! ## Teardown: the shape of a run -/

theorem Ran_nil (r : Option Err) (plan : List Call) (hr : r = none → plan = []) :
    Ran r [] plan := by
  refine ⟨?_, ⟨plan, by simp⟩, ?_⟩
  · intro pre ev post e h
    simp at h
  · intro h
    simp [hr h]

theorem Ran_append {r : Option Err} {new1 new2 : List Event} {plan1 plan2 : List Call}
    (h1 : Ran none new1 plan1) (h2 : Ran r new2 plan2) :
    Ran r (new1 ++ new2) (plan1 ++ plan2) := by
  obtain ⟨f1, -, e1⟩ := h1
  obtain ⟨f2, ⟨rest2, p2⟩, e2⟩ := h2
  have e1 := e1 rfl
  refine ⟨?_, ⟨rest2, ?_⟩, ?_⟩
  · intro pre ev post e hsplit hfat
    rcases List.append_eq_append_iff.mp hsplit with ⟨a, ha, hb⟩ | ⟨b, ha, hb⟩
    · exact f2 a ev post e hb hfat
    · cases b with
      | nil =>
        simp at hb
        exact f2 [] ev post e (by simpa using hb.symm) hfat
      | cons x b =>
        simp at hb
        obtain ⟨hx, hb⟩ := hb
        subst hx
        have := f1 pre ev b e ha hfat
        simp at this
  · simp [List.map_append, ← e1, p2]
  · intro hr
    simp [List.map_append, e1, e2 hr]

theorem Ran_stop {e : Err} {new1 : List Event} {plan1 : List Call} (plan2 : List Call)
    (h1 : Ran (some e) new1 plan1) : Ran (some e) new1 (plan1 ++ plan2) := by
  obtain ⟨f1, ⟨rest, p1⟩, -⟩ := h1
  refine ⟨f1, ⟨rest ++ plan2, by simp [p1]⟩, ?_⟩
  intro h
  simp at h

theorem Ran_single (r : Option Err) (ev : Event)
    (hr : r = fatalErr ev) : Ran r [ev] [ev.call] := by
  refine ⟨?_, ⟨[], by simp⟩, by simp⟩
  intro pre ev2 post e hsplit hfat
  cases pre with
  | nil =>
    simp at hsplit
    obtain ⟨h1, h2⟩ := hsplit
    subst h1
    exact ⟨h2, by rw [hr, hfat]⟩
  | cons x pre =>
    simp at hsplit

theorem deleteIfLive_ran (c : Client) (gvr : GVR) (s : Obj) (h : List Event) :
    ∃ new, (deleteIfLive c gvr s h).2 = h ++ new ∧
      Ran (deleteIfLive c gvr s h).1 new
        (if IsZero s.DeletionTimestamp then [deleteCall gvr s] else []) := by
  unfold deleteIfLive
  by_cases hz : IsZero s.DeletionTimestamp = true
  · simp only [hz, if_true]
    refine ⟨[Event.mk (deleteCall gvr s) (errResp (c.delete h gvr s.Namespace s.Name newDeleteOpts))],
      ?_, ?_⟩
    · cases hd : c.delete h gvr s.Namespace s.Name newDeleteOpts with
      | none => simp [deleteCall]
      | some err => cases hn : IsNotFound err <;> simp [deleteCall, hn]
    · have := Ran_single (deleteIfLive c gvr s h).1
        (Event.mk (deleteCall gvr s) (errResp (c.delete h gvr s.Namespace s.Name newDeleteOpts)))
      unfold deleteIfLive at this
      simp only [hz, if_true] at this
      apply this
      cases hd : c.delete h gvr s.Namespace s.Name newDeleteOpts with
      | none => simp [fatalErr, errResp]
      | some err => cases hn : IsNotFound err <;> simp [fatalErr, errResp, hn]
  · simp only [hz]
    exact ⟨[], by simp, Ran_nil _ _ (by simp)⟩

theorem stripFinalizers_ran (c : Client) (gvr : GVR) (s : Obj) (h : List Event) :
    ∃ new, (stripFinalizers c gvr s h).2 = h ++ new ∧
      Ran (stripFinalizers c gvr s h).1 new
        (if s.Finalizers.length = 0 then [] else [stripCall gvr s]) := by
  unfold stripFinalizers
  by_cases hz : s.Finalizers.length = 0
  · simp only [hz, if_true]
    exact ⟨[], by simp, Ran_nil _ _ (by simp)⟩
  · simp only [hz, if_false]
    refine ⟨[Event.mk (stripCall gvr s)
      (errResp (c.patch h gvr s.Namespace s.Name JSONPatchType removeFinalizersPatch))], ?_, ?_⟩
    · cases hd : c.patch h gvr s.Namespace s.Name JSONPatchType removeFinalizersPatch with
      | none => simp [stripCall]
      | some err => cases hn : IsNotFound err <;> simp [stripCall, hn]
    · have := Ran_single (stripFinalizers c gvr s h).1 (Event.mk (stripCall gvr s)
        (errResp (c.patch h gvr s.Namespace s.Name JSONPatchType removeFinalizersPatch)))
      unfold stripFinalizers at this
      simp only [hz, if_false] at this
      apply this
      cases hd : c.patch h gvr s.Namespace s.Name JSONPatchType removeFinalizersPatch with
      | none => simp [fatalErr, errResp]
      | some err => cases hn : IsNotFound err <;> simp [fatalErr, errResp, hn]

theorem deleteItems_ran (c : Client) (gvr : GVR) (l : List Obj) :
    ∀ h, ∃ new, (deleteItems c gvr l h).2 = h ++ new ∧
      Ran (deleteItems c gvr l h).1 new (plannedItems gvr l) := by
  induction l with
  | nil =>
    intro h
    exact ⟨[], by simp [deleteItems], Ran_nil _ _ (by simp [plannedItems])⟩
  | cons s rest ih =>
    intro h
    obtain ⟨n1, hh1, r1⟩ := deleteIfLive_ran c gvr s h
    cases hd : deleteIfLive c gvr s h with
    | mk res1 h1 =>
      rw [hd] at hh1 r1
      simp only at hh1 r1
      subst hh1
      cases res1 with
      | some err =>
        refine ⟨n1, by simp [deleteItems, hd], ?_⟩
        simp only [deleteItems, hd, plannedItems, plannedCalls, List.append_assoc]
        exact Ran_stop _ r1
      | none =>
        obtain ⟨n2, hh2, r2⟩ := stripFinalizers_ran c gvr s (h ++ n1)
        cases hs : stripFinalizers c gvr s (h ++ n1) with
        | mk res2 h2 =>
          rw [hs] at hh2 r2
          simp only at hh2 r2
          subst hh2
          cases res2 with
          | some err =>
            refine ⟨n1 ++ n2, by simp [deleteItems, hd, hs], ?_⟩
            simp only [deleteItems, hd, hs, plannedItems, plannedCalls, List.append_assoc]
            exact Ran_append r1 (Ran_stop _ r2)
          | none =>
            rw [List.append_assoc] at hs
            obtain ⟨n3, hh3, r3⟩ := ih (h ++ (n1 ++ n2))
            refine ⟨n1 ++ (n2 ++ n3), by simp [deleteItems, hd, hs, hh3], ?_⟩
            simp only [deleteItems, hd, hs, plannedItems, plannedCalls, List.append_assoc]
            exact Ran_append r1 (Ran_append r2 r3)

theorem removeCRDs_ran (c : Client) (objs : kbObjects) (crds : List Obj) :
    ∀ h, ∃ new, (removeCRDs c objs crds h).2 = h ++ new ∧
      Ran (removeCRDs c objs crds h).1 new (plannedCRDs objs crds) := by
  induction crds with
  | nil =>
    intro h
    exact ⟨[], by simp [removeCRDs], Ran_nil _ _ (by simp [plannedCRDs])⟩
  | cons crd rest ih =>
    intro h
    cases hg : getGVRByCRD crd with
    | error err =>
      refine ⟨[], by simp [removeCRDs, hg], ?_⟩
      simp only [removeCRDs, hg]
      exact Ran_nil _ _ (by simp)
    | ok gvr =>
      cases hm : mapGet objs gvr with
      | none =>
        obtain ⟨n, hh, r⟩ := ih h
        refine ⟨n, by simp [removeCRDs, hg, hm, hh], ?_⟩
        simpa [removeCRDs, hg, hm, plannedCRDs, plannedCRD] using r
      | some crs =>
        obtain ⟨n1, hh1, r1⟩ := deleteItems_ran c gvr crs h
        cases hd : deleteItems c gvr crs h with
        | mk res1 h1 =>
          rw [hd] at hh1 r1
          simp only at hh1 r1
          subst hh1
          cases res1 with
          | some err =>
            refine ⟨n1, by simp [removeCRDs, hg, hm, deleteObjects, hd], ?_⟩
            simp only [removeCRDs, hg, hm, deleteObjects, hd, plannedCRDs, plannedCRD]
            exact Ran_stop _ r1
          | none =>
            obtain ⟨n2, hh2, r2⟩ := ih (h ++ n1)
            refine ⟨n1 ++ n2, by simp [removeCRDs, hg, hm, deleteObjects, hd, hh2], ?_⟩
            simp only [removeCRDs, hg, hm, deleteObjects, hd, plannedCRDs, plannedCRD]
            exact Ran_append r1 r2

theorem removeCustomResources_ran (c : Client) (objs : kbObjects) :
    Ran (removeCustomResources c objs).1 (removeCustomResources c objs).2 (planned objs) := by
  unfold removeCustomResources planned
  cases hm : mapGet objs CRDGVR with
  | none => exact Ran_nil _ _ (by simp)
  | some crds =>
    obtain ⟨n, hh, r⟩ := removeCRDs_ran c objs crds []
    simp only [List.nil_append] at hh
    simp only
    rw [hh]
    exact r

theorem removeCRDs_stop (c : Client) (objs : kbObjects) (crds rest : List Obj) :
    ∀ h e tr, removeCRDs c objs crds h = (some e, tr) →
      removeCRDs c objs (crds ++ rest) h = (some e, tr) := by
  induction crds with
  | nil =>
    intro h e tr hr
    simp [removeCRDs] at hr
  | cons crd crds ih =>
    intro h e tr hr
    cases hg : getGVRByCRD crd with
    | error err =>
      simp only [removeCRDs, hg, List.cons_append] at hr ⊢
      exact hr
    | ok gvr =>
      cases hm : mapGet objs gvr with
      | none =>
        simp only [removeCRDs, hg, hm, List.cons_append] at hr ⊢
        exact ih h e tr hr
      | some crs =>
        cases hd : deleteObjects c gvr (some crs) h with
        | mk res1 h1 =>
          cases res1 with
          | some err =>
            simp only [removeCRDs, hg, hm, hd, List.cons_append] at hr ⊢
            exact hr
          | none =>
            simp only [removeCRDs, hg, hm, hd, List.cons_append] at hr ⊢
            exact ih h1 e tr hr

theorem deleteItems_benign (c : Client) (gvr : GVR) (l : List Obj)
    (hdel : ∀ h g ns n gp e, c.delete h g ns n gp = some e → IsNotFound e = true)
    (hpatch : ∀ h g ns n pt d e, c.patch h g ns n pt d = some e → IsNotFound e = true) :
    ∀ h, (deleteItems c gvr l h).1 = none := by
  induction l with
  | nil => intro h; simp [deleteItems]
  | cons s rest ih =>
    intro h
    have h1 : ∀ h, (deleteIfLive c gvr s h).1 = none := by
      intro h
      unfold deleteIfLive
      split
      · cases hd : c.delete h gvr s.Namespace s.Name newDeleteOpts with
        | none => simp
        | some e => simp [hdel _ _ _ _ _ _ hd]
      · rfl
    have h2 : ∀ h, (stripFinalizers c gvr s h).1 = none := by
      intro h
      unfold stripFinalizers
      split
      · rfl
      · cases hd : c.patch h gvr s.Namespace s.Name JSONPatchType removeFinalizersPatch with
        | none => simp
        | some e => simp [hpatch _ _ _ _ _ _ _ hd]
    cases hd : deleteIfLive c gvr s h with
    | mk r1 t1 =>
      have := h1 h
      rw [hd] at this
      simp only at this
      subst this
      cases hs : stripFinalizers c gvr s t1 with
      | mk r2 t2 =>
        have := h2 t1
        rw [hs] at this
        simp only at this
        subst this
        simp only [deleteItems, hd, hs]
        exact ih t2

theorem removeCRDs_rerun (c1 c2 : Client) (objs : kbObjects) (crds : List Obj)
    (hdel : ∀ h g ns n gp e, c2.delete h g ns n gp = some e → IsNotFound e = true)
    (hpatch : ∀ h g ns n pt d e, c2.patch h g ns n pt d = some e → IsNotFound e = true) :
    ∀ h1 h2, (removeCRDs c1 objs crds h1).1 = none → (removeCRDs c2 objs crds h2).1 = none := by
  induction crds with
  | nil => intro h1 h2 _; simp [removeCRDs]
  | cons crd rest ih =>
    intro h1 h2 hfirst
    cases hg : getGVRByCRD crd with
    | error err => simp [removeCRDs, hg] at hfirst
    | ok gvr =>
      cases hm : mapGet objs gvr with
      | none =>
        simp only [removeCRDs, hg, hm] at hfirst ⊢
        exact ih h1 h2 hfirst
      | some crs =>
        cases hd1 : deleteItems c1 gvr crs h1 with
        | mk r1 t1 =>
          cases hd2 : deleteItems c2 gvr crs h2 with
          | mk r2 t2 =>
            have hb := deleteItems_benign c2 gvr crs hdel hpatch h2
            rw [hd2] at hb
            simp only at hb
            subst hb
            cases r1 with
            | some err => simp [removeCRDs, hg, hm, deleteObjects, hd1] at hfirst
            | none =>
              simp only [removeCRDs, hg, hm, deleteObjects, hd1, hd2] at hfirst ⊢
              exact ih t1 t2 hfirst

/-- A retained Definition Object that carries its Kubernetes name resolves
neither to the Definition Object key nor to a kind probed later. -/
theorem resolved_key_unprotected (d : Obj) (K : GVR) (hr : retained d = true)
    (hn : wellNamed d = true) (hg : getGVRByCRD d = Except.ok K) : K ∉ protectedKinds := by
  intro hmem
  have hall : ∀ k ∈ protectedKinds,
      Contains (k.Resource ++ "." ++ k.Group) "kubeblocks.io" = false := by decide
  have hfalse := hall K hmem
  unfold getGVRByCRD at hg
  cases hgr : d.group with
  | none => simp [hgr] at hg
  | some g =>
    cases hv : d.servedVersion with
    | none => simp [hgr, hv] at hg
    | some v =>
      cases hp : d.plural with
      | none => simp [hgr, hv, hp] at hg
      | some p =>
        simp only [hgr, hv, hp, Except.ok.injEq] at hg
        subst hg
        have hname : d.Name = p ++ "." ++ g := by
          simpa [wellNamed, hgr, hp] using hn
        simp only [retained, hname] at hr
        simp only at hfalse
        rw [hr] at hfalse
        cases hfalse

/-! ## Teardown: the claims -/

/-- C1. Teardown is fail-fast.  (1) An answer to a Delete or Patch that is a
failure other than NotFound is the last call `removeCustomResources` issues,
and its error is the returned error.  (2) If processing a leading part of the
Definition Objects already fails, whatever the failure, the whole call returns
that error with exactly the calls issued up to it: no later kind is processed.
(3) In particular a Definition Object whose type key cannot be resolved makes
the call return the resolver's error right after the calls of the kinds
before it. -/
theorem removeCustomResources_fail_fast (c : Client) (objs : kbObjects) :
    (∀ pre ev post e, (removeCustomResources c objs).2 = pre ++ ev :: post →
        ev.resp = Resp.err e → IsNotFound e = false →
        post = [] ∧ (removeCustomResources c objs).1 = some e) ∧
    (∀ processed rest e tr, mapGet objs CRDGVR = some (processed ++ rest) →
        removeCRDs c objs processed [] = (some e, tr) →
        removeCustomResources c objs = (some e, tr)) ∧
    (∀ processed crd rest err tr, mapGet objs CRDGVR = some (processed ++ crd :: rest) →
        removeCRDs c objs processed [] = (none, tr) →
        getGVRByCRD crd = Except.error err →
        removeCustomResources c objs = (some err, tr)) := by
  refine ⟨?_, ?_, ?_⟩
  · intro pre ev post e htr hresp hnf
    exact (removeCustomResources_ran c objs).1 pre ev post e htr (by simp [fatalErr, hresp, hnf])
  · intro processed rest e tr hm hrun
    simp only [removeCustomResources, hm]
    exact removeCRDs_stop c objs processed rest [] e tr hrun
  · intro processed crd rest err tr hm hrun hres
    simp only [removeCustomResources, hm]
    have hstep : removeCRDs c objs (processed ++ [crd]) [] = (some err, tr) := by
      clear hm
      revert hrun
      generalize ([] : List Event) = h
      induction processed generalizing h with
      | nil =>
        intro hrun
        simp only [removeCRDs] at hrun
        simp only [List.nil_append, removeCRDs, hres]
        rw [Prod.mk.injEq] at hrun
        rw [hrun.2]
      | cons d ds ih =>
        intro hrun
        cases hg : getGVRByCRD d with
        | error e2 => simp [removeCRDs, hg] at hrun
        | ok gvr =>
          cases hk : mapGet objs gvr with
          | none =>
            simp only [removeCRDs, hg, hk, List.cons_append] at hrun ⊢
            exact ih h hrun
          | some crs =>
            cases hd : deleteObjects c gvr (some crs) h with
            | mk r1 t1 =>
              cases r1 with
              | some e3 => simp [removeCRDs, hg, hk, hd] at hrun
              | none =>
                simp only [removeCRDs, hg, hk, hd, List.cons_append] at hrun ⊢
                exact ih t1 hrun
    have := removeCRDs_stop c objs (processed ++ [crd]) rest [] err tr hstep
    simpa using this

/-- C1, at two concrete runs.  First: the strip of `oldcluster` is refused, the
error is returned, and the backups kind that follows is not touched.  Second:
the Definition Object after the clusters kind is malformed, the resolver's
error is returned after the calls for the clusters kind, and the backups kind
is not touched. -/
theorem removeCustomResources_fail_fast_witness :
    removeCustomResources patchFailClient twoKindInv =
      (some (Err.other "conflict"),
        [Event.mk (deleteCall clustersGVR stuckCluster) Resp.done,
         Event.mk (stripCall clustersGVR stuckCluster) Resp.done,
         Event.mk (stripCall clustersGVR dyingCluster) (Resp.err (Err.other "conflict"))]) ∧
    (([] : List Event) = [] ∧
      (removeCustomResources patchFailClient twoKindInv).1 = some (Err.other "conflict")) ∧
    removeCustomResources okClient brokenInv =
      (some (Err.malformedDefinition "opsrequests.dbaas.kubeblocks.io"),
        [Event.mk (deleteCall clustersGVR stuckCluster) Resp.done,
         Event.mk (stripCall clustersGVR stuckCluster) Resp.done]) :=
  ⟨(removeCustomResources_fail_fast patchFailClient twoKindInv).2.1
      [clustersCRD] [backupsCRD] (Err.other "conflict") _ (by decide) (by decide),
   (removeCustomResources_fail_fast patchFailClient twoKindInv).1
      [Event.mk (deleteCall clustersGVR stuckCluster) Resp.done,
       Event.mk (stripCall clustersGVR stuckCluster) Resp.done]
      (Event.mk (stripCall clustersGVR dyingCluster) (Resp.err (Err.other "conflict")))
      [] (Err.other "conflict") (by decide) rfl rfl,
   (removeCustomResources_fail_fast okClient brokenInv).2.2
      [clustersCRD] brokenCRD [backupsCRD] _ _ (by decide) (by decide) rfl⟩

/-- C9. Teardown can be re-run.  If a first call of `removeCustomResources`
returned no error, a second call with the same Inventory against a cluster
whose Deletes and Patches answer success or NotFound returns no error and
still issues every planned call: NotFound neither fails the call nor stops
it. -/
theorem removeCustomResources_idempotent (c1 c2 : Client) (objs : kbObjects)
    (hfirst : (removeCustomResources c1 objs).1 = none)
    (hdel : ∀ h g ns n gp e, c2.delete h g ns n gp = some e → IsNotFound e = true)
    (hpatch : ∀ h g ns n pt d e, c2.patch h g ns n pt d = some e → IsNotFound e = true) :
    (removeCustomResources c2 objs).1 = none ∧
    (removeCustomResources c2 objs).2.map Event.call = planned objs := by
  have hnone : (removeCustomResources c2 objs).1 = none := by
    unfold removeCustomResources at hfirst ⊢
    cases hm : mapGet objs CRDGVR with
    | none => rfl
    | some crds =>
      simp only [hm] at hfirst ⊢
      exact removeCRDs_rerun c1 c2 objs crds hdel hpatch [] [] hfirst
  exact ⟨hnone, (removeCustomResources_ran c2 objs).2.2 hnone⟩

/-- C9, at a concrete pair of runs: the first on a cluster where every call
succeeds, the second on a cluster where every object is gone. -/
theorem removeCustomResources_idempotent_witness :
    (removeCustomResources okClient twoKindInv).1 = none ∧
    (removeCustomResources goneClient twoKindInv).1 = none ∧
    (removeCustomResources goneClient twoKindInv).2.map Event.call = planned twoKindInv :=
  ⟨by decide,
   removeCustomResources_idempotent okClient goneClient twoKindInv (by decide)
    (by intro h g ns n gp e he; simp [goneClient] at he; subst he; rfl)
    (by intro h g ns n pt d e he; simp [goneClient] at he; subst he; rfl)⟩

/-! ## Discovery: the phases -/

theorem mapGet_mapSet_isSome {κ ν : Type} [DecidableEq κ] (m : List (κ × ν)) (k k2 : κ) (v : ν)
    (h : mapGet m k2 ≠ none) : mapGet (mapSet m k v) k2 ≠ none := by
  by_cases hk : k = k2
  · subst hk
    simp [mapGet_mapSet_self]
  · rw [mapGet_mapSet_ne m k k2 v hk]
    exact h

theorem appendErr_length (l : List Err) (e : Err) :
    (appendErr l (some e)).length = l.length + if IsNotFound e then 0 else 1 := by
  unfold appendErr
  cases h : IsNotFound e <;> simp [h]

theorem fatalCount_single (call : Call) (e : Err) :
    fatalCount [Event.mk call (Resp.err e)] = if IsNotFound e then 0 else 1 := by
  unfold fatalCount fatalErr
  cases h : IsNotFound e <;> simp [h]

theorem fatalCount_append (t1 t2 : List Event) :
    fatalCount (t1 ++ t2) = fatalCount t1 + fatalCount t2 := by
  simp [fatalCount]

theorem lastListedFrom_append (K : GVR) (base : Option (List Obj)) (t1 t2 : List Event) :
    lastListedFrom K base (t1 ++ t2) = lastListedFrom K (lastListedFrom K base t1) t2 := by
  simp [lastListedFrom]

theorem lastListedFrom_none_of (K : GVR) (base : Option (List Obj)) (tr : List Event)
    (h : ∀ ev ∈ tr, ev.call ≠ Call.list K "" "") : lastListedFrom K base tr = base := by
  induction tr generalizing base with
  | nil => rfl
  | cons ev tr ih =>
    have h1 : listedFor K ev = none := by
      simp [listedFor, h ev (by simp)]
    simp only [lastListedFrom, List.foldl_cons, h1]
    exact ih base (fun ev2 hev2 => h ev2 (by simp [hev2]))

theorem crCalls_cons_skip (crd : Obj) (rest : List Obj) (h : retained crd = false) :
    crCalls (crd :: rest) = crCalls rest := by
  simp [crCalls, List.filter_cons, h]

theorem crCalls_cons_error (crd : Obj) (rest : List Obj) (e : Err) (h : retained crd = true)
    (hg : getGVRByCRD crd = Except.error e) : crCalls (crd :: rest) = crCalls rest := by
  simp [crCalls, List.filter_cons, h, hg, Except.toOption]

theorem crCalls_cons_ok (crd : Obj) (rest : List Obj) (K : GVR) (h : retained crd = true)
    (hg : getGVRByCRD crd = Except.ok K) :
    crCalls (crd :: rest) = Call.list K "" "" :: crCalls rest := by
  simp [crCalls, List.filter_cons, h, hg, Except.toOption]

theorem malformedCount_cons_skip (crd : Obj) (rest : List Obj) (h : retained crd = false) :
    malformedCount (crd :: rest) = malformedCount rest := by
  simp [malformedCount, List.filter_cons, h]

theorem malformedCount_cons_error (crd : Obj) (rest : List Obj) (e : Err)
    (h : retained crd = true) (hg : getGVRByCRD crd = Except.error e) :
    malformedCount (crd :: rest) = malformedCount rest + 1 := by
  simp [malformedCount, List.filter_cons, h, hg, Except.toOption, List.countP_cons]

theorem malformedCount_cons_ok (crd : Obj) (rest : List Obj) (K : GVR)
    (h : retained crd = true) (hg : getGVRByCRD crd = Except.ok K) :
    malformedCount (crd :: rest) = malformedCount rest := by
  simp [malformedCount, List.filter_cons, h, hg, Except.toOption, List.countP_cons]

theorem getGVRByCRD_error_not_notFound (crd : Obj) (e : Err)
    (hg : getGVRByCRD crd = Except.error e) : IsNotFound e = false := by
  unfold getGVRByCRD at hg
  split at hg
  · cases hg
  · cases hg
    rfl

/-- The custom-resource phase never panics once the Definition Object entry
exists; it issues one cluster-wide List per retained, resolvable Definition
Object, records one error per malformed one and per fatal answer, and leaves
every other key bound to the answer of its last successful List. -/
theorem crdLoop_spec (c : Client) (crds : List Obj) :
    ∀ st : DState, mapGet st.kbObjs CRDGVR ≠ none →
      ∃ st2 new, crdLoop c crds st = some st2 ∧ st2.h = st.h ++ new ∧
        new.map Event.call = crCalls crds ∧
        mapGet st2.kbObjs CRDGVR ≠ none ∧
        st2.allErrs.length = st.allErrs.length + malformedCount crds + fatalCount new ∧
        ∀ K, K ≠ CRDGVR → mapGet st2.kbObjs K = lastListedFrom K (mapGet st.kbObjs K) new := by
  induction crds with
  | nil =>
    intro st hst
    exact ⟨st, [], rfl, by simp, by simp [crCalls], hst, by simp [malformedCount, fatalCount],
      fun K _ => rfl⟩
  | cons crd rest ih =>
    intro st hst
    by_cases hr : retained crd = true
    · cases hcrd : mapGet st.kbObjs CRDGVR with
      | none => exact absurd hcrd hst
      | some crdObjs =>
        cases hg : getGVRByCRD crd with
        | error err =>
          obtain ⟨st2, new, h1, h2, h3, h4, h5, h6⟩ := ih
            (DState.mk (mapSet st.kbObjs CRDGVR (crdObjs ++ [crd]))
              (appendErr st.allErrs (some err)) st.h)
            (by simp [mapGet_mapSet_self])
          refine ⟨st2, new, ?_, h2, ?_, h4, ?_, ?_⟩
          · simp [crdLoop, hr, hcrd, hg, h1]
          · rw [crCalls_cons_error crd rest err hr hg, h3]
          · rw [h5, malformedCount_cons_error crd rest err hr hg]
            simp only [appendErr_length, getGVRByCRD_error_not_notFound crd err hg]
            simp
            omega
          · intro K hK
            rw [h6 K hK]
            simp only
            rw [mapGet_mapSet_ne _ _ _ _ (Ne.symm hK)]
        | ok gvr =>
          cases hl : c.list st.h gvr "" "" with
          | error err =>
            obtain ⟨st2, new, h1, h2, h3, h4, h5, h6⟩ := ih
              (DState.mk (mapSet st.kbObjs CRDGVR (crdObjs ++ [crd]))
                (appendErr st.allErrs (some err))
                (st.h ++ [Event.mk (Call.list gvr "" "") (Resp.err err)]))
              (by simp [mapGet_mapSet_self])
            refine ⟨st2, Event.mk (Call.list gvr "" "") (Resp.err err) :: new, ?_, ?_, ?_, h4, ?_, ?_⟩
            · simp [crdLoop, hr, hcrd, hg, hl, h1, listResp]
            · simp [h2]
            · rw [crCalls_cons_ok crd rest gvr hr hg]
              simp [h3]
            · rw [h5, malformedCount_cons_ok crd rest gvr hr hg]
              have hcons : fatalCount (Event.mk (Call.list gvr "" "") (Resp.err err) :: new) =
                  fatalCount [Event.mk (Call.list gvr "" "") (Resp.err err)] + fatalCount new := by
                rw [← fatalCount_append]
                rfl
              rw [hcons, fatalCount_single]
              simp only [appendErr_length]
              omega
            · intro K hK
              rw [h6 K hK]
              simp only
              rw [mapGet_mapSet_ne _ _ _ _ (Ne.symm hK)]
              simp [lastListedFrom, listedFor]
          | ok crs =>
            obtain ⟨st2, new, h1, h2, h3, h4, h5, h6⟩ := ih
              (DState.mk (mapSet (mapSet st.kbObjs CRDGVR (crdObjs ++ [crd])) gvr crs)
                st.allErrs
                (st.h ++ [Event.mk (Call.list gvr "" "") (Resp.items crs)]))
              (mapGet_mapSet_isSome _ _ _ _ (by simp [mapGet_mapSet_self]))
            refine ⟨st2, Event.mk (Call.list gvr "" "") (Resp.items crs) :: new, ?_, ?_, ?_, h4, ?_, ?_⟩
            · simp [crdLoop, hr, hcrd, hg, hl, h1, listResp]
            · simp [h2]
            · rw [crCalls_cons_ok crd rest gvr hr hg]
              simp [h3]
            · rw [h5, malformedCount_cons_ok crd rest gvr hr hg]
              have hcons : fatalCount (Event.mk (Call.list gvr "" "") (Resp.items crs) :: new) =
                  fatalCount new := by
                simp [fatalCount, List.countP_cons, fatalErr]
              rw [hcons]
            · intro K hK
              rw [h6 K hK]
              simp only
              by_cases hk : gvr = K
              · subst hk
                simp [mapGet_mapSet_self, lastListedFrom, listedFor]
              · rw [mapGet_mapSet_ne _ _ _ _ hk, mapGet_mapSet_ne _ _ _ _ (Ne.symm hK)]
                have : Call.list gvr "" "" ≠ Call.list K "" "" := by
                  intro h
                  injection h with h
                  exact hk h
                simp [lastListedFrom, listedFor, this]
    · have hr2 : retained crd = false := by simpa using hr
      obtain ⟨st2, new, h1, h2, h3, h4, h5, h6⟩ := ih st hst
      refine ⟨st2, new, ?_, h2, ?_, h4, ?_, h6⟩
      · simp [crdLoop, hr2, h1]
      · rw [crCalls_cons_skip crd rest hr2, h3]
      · rw [h5, malformedCount_cons_skip crd rest hr2]

theorem addAll_append (base : Option (List Obj)) (l1 l2 : List (List Obj)) :
    addAll base (l1 ++ l2) = addAll (addAll base l1) l2 := by
  simp [addAll]

theorem gathered_append (g : GVR) (t1 t2 : List Event) :
    gathered g (t1 ++ t2) = gathered g t1 ++ gathered g t2 := by
  simp [gathered]

/-- One label-selector probe: one List request; a failure is recorded, a
success is appended to the entry of the probed kind, created if absent. -/
theorem getObjects_spec (c : Client) (ns labelSelector : String) (gvr : GVR) (st : DState) :
    ∃ ev, (getObjects c ns labelSelector gvr st).h = st.h ++ [ev] ∧
      ev.call = Call.list gvr ns labelSelector ∧
      ev.resp = listResp (c.list st.h gvr ns labelSelector) ∧
      (getObjects c ns labelSelector gvr st).allErrs.length =
        st.allErrs.length + fatalCount [ev] ∧
      ∀ g, mapGet (getObjects c ns labelSelector gvr st).kbObjs g =
        addAll (mapGet st.kbObjs g) (gathered g [ev]) := by
  refine ⟨Event.mk (Call.list gvr ns labelSelector) (listResp (c.list st.h gvr ns labelSelector)),
    ?_, rfl, rfl, ?_, ?_⟩
  · unfold getObjects
    cases c.list st.h gvr ns labelSelector <;> rfl
  · unfold getObjects
    cases hl : c.list st.h gvr ns labelSelector with
    | error err =>
      simp only [listResp, fatalCount_single, appendErr_length]
    | ok objs =>
      simp [listResp, fatalCount, fatalErr]
  · intro g
    unfold getObjects
    cases hl : c.list st.h gvr ns labelSelector with
    | error err =>
      simp [listResp, gathered, okItems, addAll]
    | ok objs =>
      by_cases hg : gvr = g
      · subst hg
        cases hm : mapGet st.kbObjs gvr with
        | none =>
          simp [listResp, gathered, okItems, addAll, Call.target, mapGet_mapSet_self, hm]
        | some old =>
          simp [listResp, gathered, okItems, addAll, Call.target, mapGet_mapSet_self, hm]
      · cases hm : mapGet st.kbObjs gvr with
        | none =>
          simp [listResp, gathered, okItems, addAll, Call.target, hg, hm,
            mapGet_mapSet_ne _ _ _ _ hg]
        | some old =>
          simp [listResp, gathered, okItems, addAll, Call.target, hg, hm,
            mapGet_mapSet_ne _ _ _ _ hg]

theorem runProbes_spec (c : Client) (ns : String) (ps : List (String × GVR)) :
    ∀ st : DState, ∃ new, (runProbes c ns ps st).h = st.h ++ new ∧
      new.map Event.call = ps.map (probeCall ns) ∧
      (runProbes c ns ps st).allErrs.length = st.allErrs.length + fatalCount new ∧
      ∀ g, mapGet (runProbes c ns ps st).kbObjs g =
        addAll (mapGet st.kbObjs g) (gathered g new) := by
  induction ps with
  | nil =>
    intro st
    exact ⟨[], by simp [runProbes], by simp, by simp [runProbes, fatalCount],
      fun g => by simp [runProbes, gathered, addAll]⟩
  | cons p ps ih =>
    intro st
    obtain ⟨ev, e1, e2, -, e4, e5⟩ := getObjects_spec c ns p.1 p.2 st
    obtain ⟨new, n1, n2, n3, n4⟩ := ih (getObjects c ns p.1 p.2 st)
    refine ⟨ev :: new, ?_, ?_, ?_, ?_⟩
    · simp [runProbes, n1, e1]
    · simp [n2, e2, probeCall]
    · simp only [runProbes]
      rw [n3, e4]
      have : fatalCount (ev :: new) = fatalCount [ev] + fatalCount new := by
        rw [← fatalCount_append]
        rfl
      rw [this]
      omega
    · intro g
      simp only [runProbes]
      rw [n4 g, e5 g]
      have : gathered g (ev :: new) = gathered g [ev] ++ gathered g new := by
        rw [← gathered_append]
        rfl
      rw [this, addAll_append]

theorem probes_eq (c : Client) (ns : String) (st : DState) :
    getObjects c ns instanceLabelSelector VolumeSnapshotClassGVR (probeResources c ns st) =
      runProbes c ns probeList st := by
  simp [probeResources, probeList, resourceGVRs, runProbes]

/-- One volume lookup: one Get issued through the namespaced client. -/
theorem getObject_spec (c : Client) (ns name : String) (gvr : GVR) (st : DState) :
    ∃ ev, (getObject c ns name gvr st).h = st.h ++ [ev] ∧
      ev.call = Call.get gvr ns name ∧
      (getObject c ns name gvr st).allErrs.length = st.allErrs.length + fatalCount [ev] ∧
      ∀ g, g ≠ gvr → mapGet (getObject c ns name gvr st).kbObjs g = mapGet st.kbObjs g := by
  refine ⟨Event.mk (Call.get gvr ns name) (getResp (c.get st.h gvr ns name)), ?_, rfl, ?_, ?_⟩
  · unfold getObject
    cases c.get st.h gvr ns name <;> rfl
  · unfold getObject
    cases hl : c.get st.h gvr ns name with
    | error err => simp only [getResp, fatalCount_single, appendErr_length]
    | ok obj => simp [getResp, fatalCount, fatalErr]
  · intro g hg
    unfold getObject
    cases hl : c.get st.h gvr ns name with
    | error err => rfl
    | ok obj =>
      cases hm : mapGet st.kbObjs gvr with
      | none => simp [hm, mapGet_mapSet_ne _ _ _ _ (Ne.symm hg)]
      | some old => simp [hm, mapGet_mapSet_ne _ _ _ _ (Ne.symm hg)]

theorem pvLoop_spec (c : Client) (ns : String) (pvcs : List Obj) :
    ∀ st : DState, ∃ new, (pvLoop c ns pvcs st).h = st.h ++ new ∧
      new.map Event.call = pvCalls ns pvcs ∧
      (pvLoop c ns pvcs st).allErrs.length =
        st.allErrs.length + convCount pvcs + fatalCount new ∧
      ∀ g, g ≠ PVGVR → mapGet (pvLoop c ns pvcs st).kbObjs g = mapGet st.kbObjs g := by
  induction pvcs with
  | nil =>
    intro st
    exact ⟨[], by simp [pvLoop], by simp [pvCalls], by simp [pvLoop, convCount, fatalCount],
      fun g _ => rfl⟩
  | cons obj rest ih =>
    intro st
    cases hv : obj.volumeName with
    | none =>
      obtain ⟨new, n1, n2, n3, n4⟩ := ih (DState.mk st.kbObjs
        (appendErr st.allErrs (some (Err.conversion obj.Name))) st.h)
      refine ⟨new, ?_, ?_, ?_, ?_⟩
      · simp [pvLoop, hv, n1]
      · simp [pvCalls, hv] at n2 ⊢
        exact n2
      · simp only [pvLoop, hv]
        rw [n3]
        simp [appendErr_length, IsNotFound, convCount, List.countP_cons, hv]
        omega
      · intro g hg
        simp only [pvLoop, hv]
        rw [n4 g hg]
    | some v =>
      obtain ⟨ev, e1, e2, e3, e4⟩ := getObject_spec c ns v PVGVR st
      obtain ⟨new, n1, n2, n3, n4⟩ := ih (getObject c ns v PVGVR st)
      refine ⟨ev :: new, ?_, ?_, ?_, ?_⟩
      · simp [pvLoop, hv, n1, e1]
      · simp [pvCalls, hv] at n2 ⊢
        exact ⟨e2, n2⟩
      · simp only [pvLoop, hv]
        rw [n3, e3]
        have : fatalCount (ev :: new) = fatalCount [ev] + fatalCount new := by
          rw [← fatalCount_append]
          rfl
        rw [this]
        simp [convCount, List.countP_cons, hv]
        omega
      · intro g hg
        simp only [pvLoop, hv]
        rw [n4 g hg, e4 g hg]

/-- The whole of discovery once the first List has succeeded: it returns, the
trace is the first List followed by the calls of the three phases, the error
list has one entry per malformed Definition Object, per fatal client answer
and per claim that fails to convert, and every key other than the Definition
Object key and the volume key is bound to what the custom-resource phase left
there followed by the successful probe answers for it. -/
theorem getKBObjectsRun_spec (c : Client) (ns : String) (crds : List Obj)
    (hlist : c.list [] CRDGVR "" "" = Except.ok crds) :
    ∃ st newCR newPR newPV,
      getKBObjectsRun c ns = some st ∧
      st.h = Event.mk (Call.list CRDGVR "" "") (Resp.items crds) :: (newCR ++ (newPR ++ newPV)) ∧
      newCR.map Event.call = crCalls crds ∧
      newPR.map Event.call = probeList.map (probeCall ns) ∧
      newPV.map Event.call = pvCalls ns ((mapGet st.kbObjs PVCGVR).getD []) ∧
      st.allErrs.length = malformedCount crds + fatalCount newCR + fatalCount newPR +
        convCount ((mapGet st.kbObjs PVCGVR).getD []) + fatalCount newPV ∧
      ∀ K, K ≠ CRDGVR → K ≠ PVGVR →
        mapGet st.kbObjs K = addAll (lastListedFrom K none newCR) (gathered K newPR) := by
  obtain ⟨st1, newCR, c1, c2, c3, -, c5, c6⟩ := crdLoop_spec c crds
    (DState.mk (mapSet [] CRDGVR []) (appendErr [] none)
      [Event.mk (Call.list CRDGVR "" "") (Resp.items crds)])
    (by simp [mapGet_mapSet_self])
  obtain ⟨newPR, p1, p2, p3, p4⟩ := runProbes_spec c ns probeList st1
  have hrun : getKBObjectsRun c ns = some (getPVs c ns (runProbes c ns probeList st1)) := by
    unfold getKBObjectsRun
    simp only [hlist, listResp, errOf, c1, probes_eq]
  have hbase : ∀ K, K ≠ CRDGVR → mapGet (mapSet ([] : kbObjects) CRDGVR []) K = none := by
    intro K hK
    rw [mapGet_mapSet_ne _ _ _ _ (Ne.symm hK)]
    rfl
  have hne : PVCGVR ≠ PVGVR := by decide
  cases hpvc : mapGet (runProbes c ns probeList st1).kbObjs PVCGVR with
  | none =>
    refine ⟨runProbes c ns probeList st1, newCR, newPR, [], ?_, ?_, c3, p2, ?_, ?_, ?_⟩
    · rw [hrun]
      simp [getPVs, hpvc]
    · rw [p1, c2]
      simp
    · simp [hpvc, pvCalls]
    · rw [p3, c5]
      simp [hpvc, convCount, fatalCount, appendErr]
    · intro K hK _
      rw [p4 K, c6 K hK]
      simp only
      rw [hbase K hK]
  | some pvcs =>
    obtain ⟨newPV, v1, v2, v3, v4⟩ := pvLoop_spec c ns pvcs (runProbes c ns probeList st1)
    have hsame : mapGet (pvLoop c ns pvcs (runProbes c ns probeList st1)).kbObjs PVCGVR =
        some pvcs := by
      rw [v4 PVCGVR hne, hpvc]
    refine ⟨pvLoop c ns pvcs (runProbes c ns probeList st1), newCR, newPR, newPV,
      ?_, ?_, c3, p2, ?_, ?_, ?_⟩
    · rw [hrun]
      simp [getPVs, hpvc]
    · rw [v1, p1, c2]
      simp
    · rw [hsame]
      exact v2
    · rw [hsame, v3, p3, c5]
      simp [appendErr]
    · intro K hK hK2
      rw [v4 K hK2, p4 K, c6 K hK]
      simp only
      rw [hbase K hK]

/-! ## Discovery: reading the trace -/

theorem mem_map_call {tr : List Event} {calls : List Call} {ev : Event}
    (hmap : tr.map Event.call = calls) (hev : ev ∈ tr) : ev.call ∈ calls := by
  rw [← hmap]
  exact List.mem_map_of_mem _ hev

theorem mem_crCalls {crds : List Obj} {call : Call} (h : call ∈ crCalls crds) :
    ∃ K, call = Call.list K "" "" := by
  simp only [crCalls, List.mem_map] at h
  obtain ⟨K, -, hK⟩ := h
  exact ⟨K, hK.symm⟩

theorem mem_pvCalls {ns : String} {pvcs : List Obj} {call : Call} (h : call ∈ pvCalls ns pvcs) :
    ∃ v, call = Call.get PVGVR ns v := by
  simp only [pvCalls, List.mem_filterMap] at h
  obtain ⟨o, -, ho⟩ := h
  cases hv : o.volumeName with
  | none => simp [hv] at ho
  | some v =>
    simp only [hv, Option.map_some', Option.some.injEq] at ho
    exact ⟨v, ho.symm⟩

theorem mem_probeCalls {ns : String} {call : Call}
    (h : call ∈ probeList.map (probeCall ns)) :
    ∃ g labelSelector, call = Call.list g ns labelSelector ∧ labelSelector ≠ "" ∧
      g ∈ laterProbed := by
  simp only [List.mem_map] at h
  obtain ⟨p, hp, hcall⟩ := h
  have hall : ∀ q ∈ probeList, q.1 ≠ "" ∧ q.2 ∈ laterProbed := by decide
  exact ⟨p.2, p.1, hcall.symm, (hall p hp).1, (hall p hp).2⟩

theorem crCalls_mem_of {crds : List Obj} {d : Obj} {K : GVR} (hd : d ∈ crds)
    (hr : retained d = true) (hg : getGVRByCRD d = Except.ok K) :
    Call.list K "" "" ∈ crCalls crds := by
  simp only [crCalls, List.mem_map, List.mem_filterMap, List.mem_filter]
  exact ⟨K, ⟨d, ⟨hd, hr⟩, by simp [hg, Except.toOption]⟩, rfl⟩

/-- Only the custom-resource phase can change what the last successful
cluster-wide List of a key other than the Definition Object key is. -/
theorem lastListed_final (K : GVR) (hK : K ≠ CRDGVR) (ns : String) (crds : List Obj)
    (tr newCR newPR newPV : List Event) (pvcs : List Obj)
    (htr : tr = Event.mk (Call.list CRDGVR "" "") (Resp.items crds) :: (newCR ++ (newPR ++ newPV)))
    (hPR : newPR.map Event.call = probeList.map (probeCall ns))
    (hPV : newPV.map Event.call = pvCalls ns pvcs) :
    lastListed K tr = lastListedFrom K none newCR := by
  have h0 : lastListedFrom K none [Event.mk (Call.list CRDGVR "" "") (Resp.items crds)] = none := by
    apply lastListedFrom_none_of
    intro ev hev
    simp only [List.mem_singleton] at hev
    subst hev
    intro h
    injection h with h
    exact hK h.symm
  have h1 : ∀ base, lastListedFrom K base newPR = base := by
    intro base
    apply lastListedFrom_none_of
    intro ev hev h
    obtain ⟨g, sel, hcall, hsel, -⟩ := mem_probeCalls (mem_map_call hPR hev)
    rw [h] at hcall
    injection hcall with _ _ h3
    exact hsel h3.symm
  have h2 : ∀ base, lastListedFrom K base newPV = base := by
    intro base
    apply lastListedFrom_none_of
    intro ev hev h
    obtain ⟨v, hcall⟩ := mem_pvCalls (mem_map_call hPV hev)
    rw [h] at hcall
    cases hcall
  rw [htr, lastListed]
  have hsplit : Event.mk (Call.list CRDGVR "" "") (Resp.items crds) :: (newCR ++ (newPR ++ newPV)) =
      [Event.mk (Call.list CRDGVR "" "") (Resp.items crds)] ++ (newCR ++ (newPR ++ newPV)) := rfl
  rw [hsplit, lastListedFrom_append, lastListedFrom_append, lastListedFrom_append, h0, h2, h1]

theorem fatalCount_final (crds : List Obj) (tr newCR newPR newPV : List Event)
    (htr : tr = Event.mk (Call.list CRDGVR "" "") (Resp.items crds) :: (newCR ++ (newPR ++ newPV))) :
    fatalCount tr = fatalCount newCR + fatalCount newPR + fatalCount newPV := by
  have hsplit : Event.mk (Call.list CRDGVR "" "") (Resp.items crds) :: (newCR ++ (newPR ++ newPV)) =
      [Event.mk (Call.list CRDGVR "" "") (Resp.items crds)] ++ (newCR ++ (newPR ++ newPV)) := rfl
  rw [htr, hsplit, fatalCount_append, fatalCount_append, fatalCount_append]
  simp [fatalCount, fatalErr]
  omega

/-- An event of the final trace that is a namespaced List with a label
selector was issued by the probe phase. -/
theorem probe_event_mem (ns : String) (crds : List Obj) (tr newCR newPR newPV : List Event)
    (pvcs : List Obj) (ev : Event) (g : GVR) (labelSelector : String)
    (htr : tr = Event.mk (Call.list CRDGVR "" "") (Resp.items crds) :: (newCR ++ (newPR ++ newPV)))
    (hCR : newCR.map Event.call = crCalls crds)
    (hPV : newPV.map Event.call = pvCalls ns pvcs)
    (hcall : ev.call = Call.list g ns labelSelector) (hsel : labelSelector ≠ "")
    (hev : ev ∈ tr) : ev ∈ newPR := by
  rw [htr] at hev
  simp only [List.mem_cons, List.mem_append] at hev
  rcases hev with h | h | h | h
  · subst h
    simp only at hcall
    injection hcall with _ _ h3
    exact absurd h3.symm hsel
  · obtain ⟨K, hK⟩ := mem_crCalls (mem_map_call hCR h)
    rw [hcall] at hK
    injection hK with _ _ h3
    exact absurd h3 hsel
  · exact h
  · obtain ⟨v, hv⟩ := mem_pvCalls (mem_map_call hPV h)
    rw [hcall] at hv
    cases hv

/-! ## Discovery: the claims -/

/-- C3. When the initial cluster-wide List of Definition Objects fails, the
client hands back a nil list and `getKBObjects` dereferences it at line 71:
the call panics instead of returning an Inventory and an aggregate error. -/
theorem getKBObjects_panics_on_failed_first_list (c : Client) (ns : String) (e : Err)
    (hfail : c.list [] CRDGVR "" "" = Except.error e) : getKBObjects c ns = none := by
  simp [getKBObjects, getKBObjectsRun, hfail]

/-- C3, at a cluster whose API server refuses the List. -/
theorem getKBObjects_panics_on_failed_first_list_witness :
    downClient.list [] CRDGVR "" "" = Except.error (Err.other "connection refused") ∧
    getKBObjects downClient "kb-system" = none :=
  ⟨rfl, getKBObjects_panics_on_failed_first_list downClient "kb-system"
    (Err.other "connection refused") rfl⟩

/-- C4. Tolerance of discovery, and where it ends.  (1) Once the list of
Definition Objects has been obtained, `getKBObjects` returns; every retained
Definition Object whose type key resolves has its kind listed cluster-wide,
whatever malformed Definition Objects stand before it; and the aggregate holds
exactly as many errors as there are malformed retained Definition Objects,
client answers that are failures other than NotFound, and claims that fail to
convert; when that number is zero the returned error is nil.  (2) When the
first List fails, with NotFound or with any other error, the call panics on
the nil list (line 71) and returns no aggregate at all. -/
theorem discovery_tolerance (c : Client) (ns : String) :
    (∀ crds, c.list [] CRDGVR "" "" = Except.ok crds →
      ∃ st, getKBObjectsRun c ns = some st ∧
        getKBObjects c ns = some (st.kbObjs, NewAggregate st.allErrs) ∧
        (∀ d ∈ crds, retained d = true → ∀ K, getGVRByCRD d = Except.ok K →
          Call.list K "" "" ∈ st.h.map Event.call) ∧
        aggregateSize (NewAggregate st.allErrs) =
          malformedCount crds + fatalCount st.h +
            convCount ((mapGet st.kbObjs PVCGVR).getD []) ∧
        (malformedCount crds + fatalCount st.h +
            convCount ((mapGet st.kbObjs PVCGVR).getD []) = 0 →
          NewAggregate st.allErrs = none)) ∧
    (∀ e, c.list [] CRDGVR "" "" = Except.error e → getKBObjects c ns = none) := by
  constructor
  · intro crds hlist
    obtain ⟨st, newCR, newPR, newPV, hrun, htr, hCR, -, -, herrs, -⟩ :=
      getKBObjectsRun_spec c ns crds hlist
    have hsize : aggregateSize (NewAggregate st.allErrs) = st.allErrs.length := by
      unfold NewAggregate
      by_cases h0 : st.allErrs.length = 0
      · simp [h0, aggregateSize]
      · simp [h0, aggregateSize]
    have hcount : st.allErrs.length = malformedCount crds + fatalCount st.h +
        convCount ((mapGet st.kbObjs PVCGVR).getD []) := by
      rw [herrs, fatalCount_final crds st.h newCR newPR newPV htr]
      omega
    refine ⟨st, hrun, by simp [getKBObjects, hrun], ?_, by rw [hsize, hcount], ?_⟩
    · intro d hd hr K hK
      rw [htr]
      simp only [List.map_cons, List.map_append, hCR, List.mem_cons, List.mem_append]
      exact Or.inr (Or.inl (crCalls_mem_of hd hr hK))
    · intro hzero
      unfold NewAggregate
      rw [hcount, hzero]
      rfl
  · intro e hfail
    simp [getKBObjects, getKBObjectsRun, hfail]

/-- C4, at two clusters.  First: a malformed Definition Object, a List that
times out and probes that answer NotFound give two errors, and the clusters
kind is still listed.  Second: every call answers NotFound, so NotFound is the
only failure of the run, and the call panics instead of returning a nil
error. -/
theorem discovery_tolerance_witness :
    (∃ st, getKBObjectsRun flakyClient "kb-system" = some st ∧
      getKBObjects flakyClient "kb-system" = some (st.kbObjs, NewAggregate st.allErrs) ∧
      (∀ d ∈ [brokenCRD, clustersCRD, foreignCRD], retained d = true →
        ∀ K, getGVRByCRD d = Except.ok K → Call.list K "" "" ∈ st.h.map Event.call) ∧
      aggregateSize (NewAggregate st.allErrs) =
        malformedCount [brokenCRD, clustersCRD, foreignCRD] + fatalCount st.h +
          convCount ((mapGet st.kbObjs PVCGVR).getD []) ∧
      (malformedCount [brokenCRD, clustersCRD, foreignCRD] + fatalCount st.h +
          convCount ((mapGet st.kbObjs PVCGVR).getD []) = 0 →
        NewAggregate st.allErrs = none)) ∧
    (getKBObjects flakyClient "kb-system").map Prod.snd =
      some (some [Err.malformedDefinition "opsrequests.dbaas.kubeblocks.io", Err.other "timeout"]) ∧
    goneClient.list [] CRDGVR "" "" = Except.error (Err.notFound "gone") ∧
    IsNotFound (Err.notFound "gone") = true ∧
    getKBObjects goneClient "kb-system" = none :=
  ⟨(discovery_tolerance flakyClient "kb-system").1 [brokenCRD, clustersCRD, foreignCRD] rfl,
   by decide, rfl, rfl,
   (discovery_tolerance goneClient "kb-system").2 (Err.notFound "gone") rfl⟩

theorem calls_final (ns : String) (crds : List Obj) (tr newCR newPR newPV : List Event)
    (pvcs : List Obj)
    (htr : tr = Event.mk (Call.list CRDGVR "" "") (Resp.items crds) :: (newCR ++ (newPR ++ newPV)))
    (hCR : newCR.map Event.call = crCalls crds)
    (hPR : newPR.map Event.call = probeList.map (probeCall ns))
    (hPV : newPV.map Event.call = pvCalls ns pvcs) :
    tr.map Event.call =
      Call.list CRDGVR "" "" :: (crCalls crds ++ (probeList.map (probeCall ns) ++ pvCalls ns pvcs)) := by
  rw [htr]
  simp [hCR, hPR, hPV]

theorem gathered_eq_filter (g : GVR) (tr : List Event) :
    gathered g tr =
      (tr.filter (fun ev => decide (ev.call.target = g))).filterMap (fun ev => okItems ev.resp) := by
  induction tr with
  | nil => rfl
  | cons ev tr ih =>
    by_cases h : ev.call.target = g
    · simp [gathered, List.filterMap_cons, h] at ih ⊢
      cases okItems ev.resp <;> simp [ih]
    · simp [gathered, List.filterMap_cons, h] at ih ⊢
      exact ih

/-- The probe phase targets each kind of `resourceGVRs` exactly twice: with
the instance selector, then with the release selector. -/
theorem probes_of_kind (g : GVR) (hg : g ∈ resourceGVRs) :
    probeList.filter (fun p => decide (p.2 = g)) =
      [(instanceLabelSelector, g), (releaseLabelSelector, g)] := by
  simp only [resourceGVRs, List.mem_cons, List.mem_singleton, List.not_mem_nil, or_false] at hg
  rcases hg with rfl | rfl | rfl | rfl | rfl <;> decide

theorem gathered_pair (ns : String) (g : GVR) (hg : g ∈ resourceGVRs) (newPR : List Event)
    (hPR : newPR.map Event.call = probeList.map (probeCall ns)) (a b : List Obj)
    (hA : Event.mk (Call.list g ns instanceLabelSelector) (Resp.items a) ∈ newPR)
    (hB : Event.mk (Call.list g ns releaseLabelSelector) (Resp.items b) ∈ newPR) :
    gathered g newPR = [a, b] := by
  have hcalls : (newPR.filter (fun ev => decide (ev.call.target = g))).map Event.call =
      [Call.list g ns instanceLabelSelector, Call.list g ns releaseLabelSelector] := by
    have h1 : (newPR.filter (fun ev => decide (ev.call.target = g))).map Event.call =
        (newPR.map Event.call).filter (fun call => decide (call.target = g)) := by
      rw [List.filter_map]
      rfl
    have h2 : (probeList.map (probeCall ns)).filter (fun call => decide (call.target = g)) =
        (probeList.filter (fun p => decide (p.2 = g))).map (probeCall ns) := by
      rw [List.filter_map]
      rfl
    rw [h1, hPR, h2, probes_of_kind g hg]
    rfl
  have hsel : instanceLabelSelector ≠ releaseLabelSelector := by decide
  obtain ⟨x, t1, hF, hx, ht1⟩ := List.map_eq_cons_iff.mp hcalls
  obtain ⟨y, t2, hF2, hy, ht2⟩ := List.map_eq_cons_iff.mp ht1
  have ht2nil : t2 = [] := List.map_eq_nil_iff.mp ht2
  subst ht2nil
  subst hF2
  have hAmem : Event.mk (Call.list g ns instanceLabelSelector) (Resp.items a) ∈
      newPR.filter (fun ev => decide (ev.call.target = g)) := by
    rw [List.mem_filter]
    exact ⟨hA, by simp [Call.target]⟩
  have hBmem : Event.mk (Call.list g ns releaseLabelSelector) (Resp.items b) ∈
      newPR.filter (fun ev => decide (ev.call.target = g)) := by
    rw [List.mem_filter]
    exact ⟨hB, by simp [Call.target]⟩
  rw [hF] at hAmem hBmem
  simp only [List.mem_cons, List.mem_singleton, List.not_mem_nil, or_false] at hAmem hBmem
  have hxA : x = Event.mk (Call.list g ns instanceLabelSelector) (Resp.items a) := by
    rcases hAmem with h | h
    · exact h.symm
    · exfalso
      rw [← h] at hy
      simp only at hy
      injection hy with _ _ h3
      exact hsel h3
  have hyB : y = Event.mk (Call.list g ns releaseLabelSelector) (Resp.items b) := by
    rcases hBmem with h | h
    · exfalso
      rw [← h] at hx
      simp only at hx
      injection hx with _ _ h3
      exact hsel h3.symm
    · exact h.symm
  rw [gathered_eq_filter, hF, hxA, hyB]
  simp [okItems]

theorem count_probe_call (ns : String) (crds : List Obj) (tr newCR newPR newPV : List Event)
    (pvcs : List Obj) (g : GVR) (labelSelector : String)
    (htr : tr = Event.mk (Call.list CRDGVR "" "") (Resp.items crds) :: (newCR ++ (newPR ++ newPV)))
    (hCR : newCR.map Event.call = crCalls crds)
    (hPR : newPR.map Event.call = probeList.map (probeCall ns))
    (hPV : newPV.map Event.call = pvCalls ns pvcs)
    (hsel : labelSelector ≠ "") :
    List.count (Call.list g ns labelSelector) (tr.map Event.call) =
      List.countP (fun p => decide (p.1 = labelSelector ∧ p.2 = g)) probeList := by
  rw [calls_final ns crds tr newCR newPR newPV pvcs htr hCR hPR hPV]
  have h0 : (Call.list CRDGVR "" "" == Call.list g ns labelSelector) = false := by
    rw [beq_eq_false_iff_ne]
    intro h
    injection h with _ _ h3
    exact hsel h3.symm
  have h1 : List.count (Call.list g ns labelSelector) (crCalls crds) = 0 := by
    rw [List.count_eq_zero]
    intro hmem
    obtain ⟨K, hK⟩ := mem_crCalls hmem
    injection hK with _ _ h3
    exact hsel h3
  have h2 : List.count (Call.list g ns labelSelector) (pvCalls ns pvcs) = 0 := by
    rw [List.count_eq_zero]
    intro hmem
    obtain ⟨v, hv⟩ := mem_pvCalls hmem
    cases hv
  have h3 : ∀ ps : List (String × GVR),
      List.count (Call.list g ns labelSelector) (ps.map (probeCall ns)) =
        List.countP (fun p => decide (p.1 = labelSelector ∧ p.2 = g)) ps := by
    intro ps
    induction ps with
    | nil => rfl
    | cons q ps ih =>
      rw [List.map_cons, List.count_cons, List.countP_cons, ih]
      by_cases hq : q.1 = labelSelector ∧ q.2 = g
      · have : probeCall ns q = Call.list g ns labelSelector := by
          simp [probeCall, hq.1, hq.2]
        simp [this, hq]
      · have : probeCall ns q ≠ Call.list g ns labelSelector := by
          intro h
          simp only [probeCall] at h
          injection h with h1 _ h3
          exact hq ⟨h3, h1⟩
        simp [this, hq]
  rw [List.count_cons, List.count_append, List.count_append, h1, h2, h3 probeList, h0]
  simp

/-- Once the list of Definition Objects has been obtained, `getKBObjects`
returns and has probed each kind of `resourceGVRs` exactly once with each
selector; when both probes succeed, with answers `a` and `b`, the sequence of
the kind is what the custom-resource phase stored under that key followed by
`a` followed by `b`. -/
theorem probe_sequence (c : Client) (ns : String) (crds : List Obj) (g : GVR)
    (hlist : c.list [] CRDGVR "" "" = Except.ok crds) (hg : g ∈ resourceGVRs) :
    ∃ st, getKBObjectsRun c ns = some st ∧
      List.count (Call.list g ns instanceLabelSelector) (st.h.map Event.call) = 1 ∧
      List.count (Call.list g ns releaseLabelSelector) (st.h.map Event.call) = 1 ∧
      ∀ a b, Event.mk (Call.list g ns instanceLabelSelector) (Resp.items a) ∈ st.h →
        Event.mk (Call.list g ns releaseLabelSelector) (Resp.items b) ∈ st.h →
        mapGet st.kbObjs g = some ((lastListed g st.h).getD [] ++ a ++ b) ∧
        ∀ o, o ∈ a → o ∈ b → 2 ≤ List.count o ((lastListed g st.h).getD [] ++ a ++ b) := by
  obtain ⟨st, newCR, newPR, newPV, hrun, htr, hCR, hPR, hPV, -, hmap⟩ :=
    getKBObjectsRun_spec c ns crds hlist
  have hne : g ≠ CRDGVR ∧ g ≠ PVGVR := by
    have hall : ∀ k ∈ resourceGVRs, k ≠ CRDGVR ∧ k ≠ PVGVR := by decide
    exact hall g hg
  have hcount : ∀ sel, sel = instanceLabelSelector ∨ sel = releaseLabelSelector →
      List.count (Call.list g ns sel) (st.h.map Event.call) = 1 := by
    intro sel hsel
    have hnonempty : sel ≠ "" := by
      rcases hsel with h | h <;> rw [h] <;> decide
    rw [count_probe_call ns crds st.h newCR newPR newPV _ g sel htr hCR hPR hPV hnonempty]
    have hall : ∀ k ∈ resourceGVRs,
        List.countP (fun p => decide (p.1 = instanceLabelSelector ∧ p.2 = k)) probeList = 1 ∧
        List.countP (fun p => decide (p.1 = releaseLabelSelector ∧ p.2 = k)) probeList = 1 := by
      decide
    rcases hsel with h | h
    · rw [h]
      exact (hall g hg).1
    · rw [h]
      exact (hall g hg).2
  refine ⟨st, hrun, hcount _ (Or.inl rfl), hcount _ (Or.inr rfl), ?_⟩
  intro a b hA hB
  have hA2 := probe_event_mem ns crds st.h newCR newPR newPV _ _ g instanceLabelSelector
    htr hCR hPV rfl (by decide) hA
  have hB2 := probe_event_mem ns crds st.h newCR newPR newPV _ _ g releaseLabelSelector
    htr hCR hPV rfl (by decide) hB
  have hseq : mapGet st.kbObjs g = some ((lastListed g st.h).getD [] ++ a ++ b) := by
    rw [hmap g hne.1 hne.2, gathered_pair ns g hg newPR hPR a b hA2 hB2,
      lastListed_final g hne.1 ns crds st.h newCR newPR newPV _ htr hPR hPV]
    simp [addAll]
  refine ⟨hseq, ?_⟩
  intro o hoa hob
  have h1 : 1 ≤ List.count o a := List.count_pos_iff.mpr hoa
  have h2 : 1 ≤ List.count o b := List.count_pos_iff.mpr hob
  simp only [List.count_append]
  omega

theorem mem_crCalls_resolved {crds : List Obj} {call : Call} (h : call ∈ crCalls crds) :
    ∃ d K, d ∈ crds ∧ retained d = true ∧ getGVRByCRD d = Except.ok K ∧
      call = Call.list K "" "" := by
  simp only [crCalls, List.mem_map, List.mem_filterMap, List.mem_filter] at h
  obtain ⟨K, ⟨d, ⟨hd, hr⟩, hres⟩, hcall⟩ := h
  refine ⟨d, K, hd, hr, ?_, hcall.symm⟩
  cases hg : getGVRByCRD d with
  | error e => simp [hg, Except.toOption] at hres
  | ok K2 =>
    simp only [hg, Except.toOption, Option.some.injEq] at hres
    rw [hres]

/-- C10. Two-selector duplication, and where it ends.  (1) On a cluster whose
List of Definition Objects succeeds and holds objects named plural.group, as
Kubernetes names them, `getKBObjects` returns and has probed each kind of
`resourceGVRs` exactly once with the instance selector and exactly once with
the release selector; when both probes succeed, with answers `a` and `b`, the
Inventory's sequence for the kind is `a` followed by `b`, with no
deduplication: a record in both answers occurs at least twice.  (2) When the
first List fails, the call panics on the nil list (line 71) before any probe
is issued. -/
theorem two_selector_probes (c : Client) (ns : String) (g : GVR) (hg : g ∈ resourceGVRs) :
    (∀ crds, c.list [] CRDGVR "" "" = Except.ok crds → (∀ d ∈ crds, wellNamed d = true) →
      ∃ st, getKBObjectsRun c ns = some st ∧
        List.count (Call.list g ns instanceLabelSelector) (st.h.map Event.call) = 1 ∧
        List.count (Call.list g ns releaseLabelSelector) (st.h.map Event.call) = 1 ∧
        ∀ a b, Event.mk (Call.list g ns instanceLabelSelector) (Resp.items a) ∈ st.h →
          Event.mk (Call.list g ns releaseLabelSelector) (Resp.items b) ∈ st.h →
          mapGet st.kbObjs g = some (a ++ b) ∧
          ∀ o, o ∈ a → o ∈ b → 2 ≤ List.count o (a ++ b)) ∧
    (∀ e, c.list [] CRDGVR "" "" = Except.error e → getKBObjects c ns = none) := by
  constructor
  · intro crds hlist hnamed
    obtain ⟨st, newCR, newPR, newPV, hrun, htr, hCR, hPR, hPV, -, -⟩ :=
      getKBObjectsRun_spec c ns crds hlist
    obtain ⟨st2, hrun2, hc1, hc2, hseq⟩ := probe_sequence c ns crds g hlist hg
    have hst : st2 = st := by
      rw [hrun] at hrun2
      exact (Option.some.inj hrun2).symm
    subst hst
    have hgprot : g ∈ protectedKinds := List.mem_cons_of_mem _ (List.mem_append_left _ hg)
    have hgcrd : g ≠ CRDGVR := by
      have hall : ∀ k ∈ resourceGVRs, k ≠ CRDGVR := by decide
      exact hall g hg
    have hnone : lastListed g st2.h = none := by
      rw [lastListed_final g hgcrd ns crds st2.h newCR newPR newPV _ htr hPR hPV]
      apply lastListedFrom_none_of
      intro ev hev hcall
      have hmem : ev.call ∈ crCalls crds := mem_map_call hCR hev
      obtain ⟨d, K, hd, hr, hres, hK⟩ := mem_crCalls_resolved hmem
      rw [hcall] at hK
      injection hK with hK
      subst hK
      exact resolved_key_unprotected d g hr (hnamed d hd) hres hgprot
    refine ⟨st2, hrun, hc1, hc2, ?_⟩
    intro a b hA hB
    have := hseq a b hA hB
    rw [hnone] at this
    simpa using this
  · intro e hfail
    simp [getKBObjects, getKBObjectsRun, hfail]

/-- C10, at two clusters.  First: both selectors match the installation's
deployment, both probes are answered with it, and it is recorded twice.
Second: the List of Definition Objects is refused although both probes would
succeed, and the call panics. -/
theorem two_selector_probes_witness :
    (∃ st, getKBObjectsRun bothSelectorsClient "kb-system" = some st ∧
      List.count (Call.list DeployGVR "kb-system" instanceLabelSelector) (st.h.map Event.call) = 1 ∧
      List.count (Call.list DeployGVR "kb-system" releaseLabelSelector) (st.h.map Event.call) = 1 ∧
      ∀ a b,
        Event.mk (Call.list DeployGVR "kb-system" instanceLabelSelector) (Resp.items a) ∈ st.h →
        Event.mk (Call.list DeployGVR "kb-system" releaseLabelSelector) (Resp.items b) ∈ st.h →
        mapGet st.kbObjs DeployGVR = some (a ++ b) ∧
        ∀ o, o ∈ a → o ∈ b → 2 ≤ List.count o (a ++ b)) ∧
    (getKBObjectsRun bothSelectorsClient "kb-system").map
        (fun st =>
          (decide (Event.mk (Call.list DeployGVR "kb-system" instanceLabelSelector)
              (Resp.items [kbDeployment]) ∈ st.h),
           decide (Event.mk (Call.list DeployGVR "kb-system" releaseLabelSelector)
              (Resp.items [kbDeployment]) ∈ st.h),
           mapGet st.kbObjs DeployGVR)) =
      some (true, true, some [kbDeployment, kbDeployment]) ∧
    crdForbiddenClient.list [] CRDGVR "" "" = Except.error (Err.other "forbidden") ∧
    crdForbiddenClient.list [] DeployGVR "kb-system" instanceLabelSelector =
      Except.ok [kbDeployment] ∧
    crdForbiddenClient.list [] DeployGVR "kb-system" releaseLabelSelector =
      Except.ok [kbDeployment] ∧
    getKBObjects crdForbiddenClient "kb-system" = none :=
  ⟨(two_selector_probes bothSelectorsClient "kb-system" DeployGVR (by decide)).1 [] rfl
      (by decide),
   by decide, rfl, by decide, by decide,
   (two_selector_probes crdForbiddenClient "kb-system" DeployGVR (by decide)).2
      (Err.other "forbidden") rfl⟩

/-- What discovery stores under the Definition Object key: on a cluster whose
Definition Objects are named plural.group, exactly the retained ones, in
order.  These are the Definition Objects teardown is later given. -/
theorem discovered_definitions (c : Client) (ns : String) (crds : List Obj)
    (hlist : c.list [] CRDGVR "" "" = Except.ok crds)
    (hnamed : ∀ d ∈ crds, wellNamed d = true) :
    ∃ st, getKBObjectsRun c ns = some st ∧
      mapGet st.kbObjs CRDGVR = some (crds.filter retained) := by
  have hloop : ∀ (l : List Obj), (∀ d ∈ l, wellNamed d = true) →
      ∀ (st : DState) (entry : List Obj), mapGet st.kbObjs CRDGVR = some entry →
        ∀ st2, crdLoop c l st = some st2 →
          mapGet st2.kbObjs CRDGVR = some (entry ++ l.filter retained) := by
    intro l
    induction l with
    | nil =>
      intro _ st entry hentry st2 hrun
      simp only [crdLoop, Option.some.injEq] at hrun
      subst hrun
      simpa using hentry
    | cons d rest ih =>
      intro hn st entry hentry st2 hrun
      have hnrest : ∀ d2 ∈ rest, wellNamed d2 = true := fun d2 h2 => hn d2 (by simp [h2])
      cases hr : retained d with
      | false =>
        simp only [crdLoop, hr, Bool.not_false, if_true] at hrun
        rw [List.filter_cons_of_neg (by simp [hr])]
        exact ih hnrest st entry hentry st2 hrun
      | true =>
        rw [List.filter_cons_of_pos hr]
        have hstep : ∀ st1 : DState, mapGet st1.kbObjs CRDGVR = some (entry ++ [d]) →
            crdLoop c rest st1 = some st2 →
            mapGet st2.kbObjs CRDGVR = some (entry ++ d :: rest.filter retained) := by
          intro st1 h1 hrun1
          have := ih hnrest st1 (entry ++ [d]) h1 st2 hrun1
          simpa using this
        simp only [crdLoop, hr, Bool.not_true, hentry] at hrun
        cases hg : getGVRByCRD d with
        | error err =>
          simp only [hg] at hrun
          exact hstep _ (by simp [mapGet_mapSet_self]) hrun
        | ok gvr =>
          have hne : gvr ≠ CRDGVR := by
            intro h
            apply resolved_key_unprotected d gvr hr (hn d (by simp)) hg
            rw [h]
            decide
          cases hl : c.list st.h gvr "" "" with
          | error err =>
            simp only [hg, hl] at hrun
            exact hstep _ (by simp [mapGet_mapSet_self]) hrun
          | ok crs =>
            simp only [hg, hl] at hrun
            exact hstep _ (by
              simp only
              rw [mapGet_mapSet_ne _ _ _ _ hne, mapGet_mapSet_self]) hrun
  obtain ⟨st, newCR, newPR, newPV, hrun, -, -, hPR, -, -, -⟩ :=
    getKBObjectsRun_spec c ns crds hlist
  refine ⟨st, hrun, ?_⟩
  unfold getKBObjectsRun at hrun
  simp only [hlist, listResp, errOf, probes_eq] at hrun
  cases hcl : crdLoop c crds (DState.mk (mapSet [] CRDGVR []) (appendErr [] none)
      [Event.mk (Call.list CRDGVR "" "") (Resp.items crds)]) with
  | none => simp [hcl] at hrun
  | some st1 =>
    simp only [hcl, Option.some.injEq] at hrun
    have h1 : mapGet st1.kbObjs CRDGVR = some (crds.filter retained) := by
      have := hloop crds hnamed _ [] (by simp [mapGet_mapSet_self]) st1 hcl
      simpa using this
    obtain ⟨new, -, n2, -, n4⟩ := runProbes_spec c ns probeList st1
    have h2 : mapGet (runProbes c ns probeList st1).kbObjs CRDGVR =
        some (crds.filter retained) := by
      rw [n4 CRDGVR, h1]
      have hnone : gathered CRDGVR new = [] := by
        simp only [gathered, List.filterMap_eq_nil_iff]
        intro ev hev
        obtain ⟨g, sel, hcall, -, hmem⟩ := mem_probeCalls (mem_map_call n2 hev)
        have : ev.call.target ≠ CRDGVR := by
          rw [hcall]
          intro h
          simp only [Call.target] at h
          rw [h] at hmem
          revert hmem
          decide
        simp [this]
      rw [hnone]
      rfl
    have hcrdpv : CRDGVR ≠ PVGVR := by decide
    rw [← hrun]
    unfold getPVs
    cases hpvc : mapGet (runProbes c ns probeList st1).kbObjs PVCGVR with
    | none => exact h2
    | some pvcs =>
      obtain ⟨newPV2, -, -, -, v4⟩ := pvLoop_spec c ns pvcs (runProbes c ns probeList st1)
      simp only
      rw [v4 CRDGVR hcrdpv]
      exact h2

/-- C7. The volume lookups of `getKBObjects` are not cluster-scoped.  Once the
list of Definition Objects has been obtained, the call returns and its Get
requests are exactly one per claim record of the Inventory whose conversion
succeeds, on the volume key, by the bound volume name, each issued in the
namespace `getKBObjects` was given. -/
theorem volume_lookup_uses_namespace (c : Client) (ns : String) (crds : List Obj)
    (hlist : c.list [] CRDGVR "" "" = Except.ok crds) :
    ∃ st, getKBObjectsRun c ns = some st ∧
      (st.h.map Event.call).filter Call.isGet =
        ((mapGet st.kbObjs PVCGVR).getD []).filterMap
          (fun claim => claim.volumeName.map (fun v => Call.get PVGVR ns v)) := by
  obtain ⟨st, newCR, newPR, newPV, hrun, htr, hCR, hPR, hPV, -, -⟩ :=
    getKBObjectsRun_spec c ns crds hlist
  refine ⟨st, hrun, ?_⟩
  rw [calls_final ns crds st.h newCR newPR newPV _ htr hCR hPR hPV]
  have h1 : (crCalls crds).filter Call.isGet = [] := by
    rw [List.filter_eq_nil_iff]
    intro call hcall
    obtain ⟨K, hK⟩ := mem_crCalls hcall
    subst hK
    simp [Call.isGet]
  have h2 : (probeList.map (probeCall ns)).filter Call.isGet = [] := by
    rw [List.filter_eq_nil_iff]
    intro call hcall
    obtain ⟨g, sel, hg, -, -⟩ := mem_probeCalls hcall
    subst hg
    simp [Call.isGet]
  have h3 : (pvCalls ns ((mapGet st.kbObjs PVCGVR).getD [])).filter Call.isGet =
      pvCalls ns ((mapGet st.kbObjs PVCGVR).getD []) := by
    rw [List.filter_eq_self]
    intro call hcall
    obtain ⟨v, hv⟩ := mem_pvCalls hcall
    subst hv
    rfl
  have h0 : ¬ (Call.isGet (Call.list CRDGVR "" "") = true) := by simp [Call.isGet]
  rw [List.filter_cons_of_neg h0, List.filter_append, List.filter_append, h1, h2, h3]
  simp [pvCalls]

/-- C7, at the scenario of the claim `data-mycluster-0` bound to the existing
volume `pvc-abc123`, with discovery run for namespace `kb-system`: the one Get
is issued in that namespace, the cluster answers NotFound, and the Inventory
has no volume entry. -/
theorem volume_lookup_uses_namespace_witness :
    (∃ st, getKBObjectsRun volumeClient "kb-system" = some st ∧
      (st.h.map Event.call).filter Call.isGet =
        ((mapGet st.kbObjs PVCGVR).getD []).filterMap
          (fun claim => claim.volumeName.map (fun v => Call.get PVGVR "kb-system" v))) ∧
    volumeClient.get [] PVGVR "" "pvc-abc123" = Except.ok boundVolume ∧
    (getKBObjectsRun volumeClient "kb-system").map
        (fun st => (mapGet st.kbObjs PVCGVR, st.h.getLast?, mapGet st.kbObjs PVGVR, st.allErrs)) =
      some (some [boundClaim],
            some (Event.mk (Call.get PVGVR "kb-system" "pvc-abc123")
              (Resp.err (Err.notFound "pvc-abc123"))),
            none, []) :=
  ⟨volume_lookup_uses_namespace volumeClient "kb-system" [] rfl, rfl, by decide⟩

/-! ## Reporting: the claims -/

theorem appendItems_other (res : List (String × List String)) (key r : String) (l : List Obj)
    (hne : key ≠ r) : mapGet (appendItems res key l) r = mapGet res r := by
  induction l generalizing res with
  | nil => rfl
  | cons item l ih =>
    simp only [appendItems]
    rw [ih, mapGet_mapSet_ne _ _ _ _ hne]

theorem getRemainedResource_fold (r : String) (objs : kbObjects)
    (hkeys : ∀ kv ∈ objs, kv.1.Resource = r → kv.1 = PVCGVR ∨ kv.1 = PVGVR) :
    ∀ res : List (String × List String), mapGet res r = none →
      mapGet (objs.foldl
        (fun res kv =>
          if kv.1 = PVCGVR ∨ kv.1 = PVGVR then res else appendItems res kv.1.Resource kv.2)
        res) r = none := by
  induction objs with
  | nil => intro res h; exact h
  | cons kv objs ih =>
    intro res hres
    simp only [List.foldl_cons]
    apply ih (fun kv2 h2 => hkeys kv2 (by simp [h2]))
    by_cases hskip : kv.1 = PVCGVR ∨ kv.1 = PVGVR
    · simp only [hskip, if_true]
      exact hres
    · simp only [hskip, if_false]
      rw [appendItems_other _ _ _ _ (fun h => hskip (hkeys kv (by simp) h))]
      exact hres

/-- C6 as stated fails: the Inventory holds the claim and volume entries and a
record of a custom kind whose plural name is also `persistentvolumes`; the
report has an entry under that plural name. -/
theorem reporter_exclusion_counterexample :
    mapGet clashInv PVCGVR = some [boundClaim] ∧
    mapGet clashInv PVGVR = some [boundVolume] ∧
    PVGVR.Resource = "persistentvolumes" ∧
    getRemainedResource clashInv = [("persistentvolumes", ["scratch"])] := by
  refine ⟨by decide, by decide, rfl, by decide⟩

/-- C6, amended.  If every type key of the Inventory whose resource-plural
name is that of the volume-claim key or of the volume key is one of those two
keys, the mapping returned by `getRemainedResource` has no entry under either
plural name. -/
theorem reporter_exclusion (objs : kbObjects)
    (hpvc : ∀ kv ∈ objs, kv.1.Resource = PVCGVR.Resource → kv.1 = PVCGVR ∨ kv.1 = PVGVR)
    (hpv : ∀ kv ∈ objs, kv.1.Resource = PVGVR.Resource → kv.1 = PVCGVR ∨ kv.1 = PVGVR) :
    mapGet (getRemainedResource objs) PVCGVR.Resource = none ∧
    mapGet (getRemainedResource objs) PVGVR.Resource = none :=
  ⟨getRemainedResource_fold _ objs hpvc [] rfl, getRemainedResource_fold _ objs hpv [] rfl⟩

/-- C6 amended, on an Inventory with a deployment, a claim and its volume:
only the deployment is reported. -/
theorem reporter_exclusion_witness :
    getRemainedResource storageInv = [("deployments", ["kubeblocks"])] ∧
    (mapGet (getRemainedResource storageInv) PVCGVR.Resource = none ∧
      mapGet (getRemainedResource storageInv) PVGVR.Resource = none) :=
  ⟨by decide, reporter_exclusion storageInv (by decide) (by decide)⟩

end KubeBlocks
